import Mathlib

/-!
Verification of the MedDocValidate compliance validator (src/validator.py).

The development shallowly embeds the pure core of `FDAComplianceValidator`:
the CFR requirements catalog, `get_regulation_requirements`,
`build_enhanced_prompt` / `_build_basic_prompt`, the response-normalization
step of `validate_document` (markdown-fence stripping followed by a strict
JSON parse with a degraded fallback object), and
`format_results_for_display` (including the Python `sorted` call whose
comparisons may raise `TypeError`).

Python strings are modelled as Lean `String` / `List Char`; `json.loads`
is modelled by an executable strict JSON parser (`parseJson`); Python
exceptions are modelled with `Except PyErr`.
-/

set_option maxRecDepth 65536

namespace MedDoc

/-- Whitespace characters stripped by Python `str.strip()` (ASCII subset;
Unicode whitespace is outside the model). -/
def isPyWs (c : Char) : Bool :=
  c = ' ' || c = '\t' || c = '\n' || c = '\r' || c = '\x0b' || c = '\x0c'

/-- Whitespace accepted between JSON tokens by `json.loads` (space, tab,
newline, carriage return). -/
def isJsonWs (c : Char) : Bool :=
  c = ' ' || c = '\t' || c = '\n' || c = '\r'

/-- Check that `n` is a leading segment of `h` (models Python
`h.startswith(n)` at the list level). -/
def leadEq : List Char → List Char → Bool
  | [], _ => true
  | _ :: _, [] => false
  | a :: as, b :: bs => a == b && leadEq as bs

/-- Check that `n` occurs as a contiguous segment of `h` (models the Python
containment operator `n in h` on strings). -/
def hasSub (n : List Char) : List Char → Bool
  | [] => leadEq n []
  | c :: t => leadEq n (c :: t) || hasSub n t

/-- Python string containment `needle in hay`. -/
def pyIn (needle hay : String) : Bool :=
  hasSub needle.data hay.data

/-- Drop leading Python whitespace (left part of `str.strip()`). -/
def lStripL (l : List Char) : List Char := l.dropWhile isPyWs

/-- Drop trailing Python whitespace (right part of `str.strip()`). -/
def rStripL (l : List Char) : List Char := (l.reverse.dropWhile isPyWs).reverse

/-- Python `str.strip()` on character lists. -/
def pyStripL (l : List Char) : List Char := rStripL (lStripL l)

/-- Split a character list at newline characters, keeping empty segments,
as Python `s.split('\n')` does. -/
def splitNl : List Char → List (List Char)
  | [] => [[]]
  | c :: t =>
    if c = '\n' then [] :: splitNl t
    else
      match splitNl t with
      | [] => [[c]]
      | h :: r => (c :: h) :: r

/-- Join segments with newline characters, as Python `'\n'.join(...)`. -/
def joinNl : List (List Char) → List Char
  | [] => []
  | [l] => l
  | l :: r => l ++ '\n' :: joinNl r

/-- JSON values as produced by `json.loads`. Integer literals become `num`;
number literals with a fraction or exponent, and the `NaN` / `Infinity`
constants accepted by Python, are kept as `numRaw` lexemes (their float
semantics is outside the model). Objects keep Python dict insertion order. -/
inductive Json where
  | null
  | bool (b : Bool)
  | num (n : Int)
  | numRaw (lexeme : String)
  | str (s : String)
  | arr (elems : List Json)
  | obj (fields : List (String × Json))

/-- Insert a key into an association list with Python dict semantics:
an existing key keeps its position and gets the new value. -/
def insertKV : List (String × Json) → String → Json → List (String × Json)
  | [], k, v => [(k, v)]
  | (k', v') :: t, k, v =>
    if k' = k then (k', v) :: t else (k', v') :: insertKV t k v

/-- ASCII decimal digit test. -/
def isDigitChar (c : Char) : Bool := 48 ≤ c.toNat && c.toNat ≤ 57

/-- Hexadecimal digit value, for string escapes. -/
def hexVal (c : Char) : Option Nat :=
  if 48 ≤ c.toNat ∧ c.toNat ≤ 57 then some (c.toNat - 48)
  else if 97 ≤ c.toNat ∧ c.toNat ≤ 102 then some (c.toNat - 87)
  else if 65 ≤ c.toNat ∧ c.toNat ≤ 70 then some (c.toNat - 55)
  else none

/-- Value of a four-digit hexadecimal escape. -/
def hex4 (a b c d : Char) : Option Nat :=
  match hexVal a, hexVal b, hexVal c, hexVal d with
  | some x, some y, some z, some w => some (((x * 16 + y) * 16 + z) * 16 + w)
  | _, _, _, _ => none

/-- Skip JSON inter-token whitespace. -/
def skipWsL (l : List Char) : List Char := l.dropWhile isJsonWs

/-- Parse the body of a JSON string literal after the opening quote, in
strict mode: raw control characters (below 0x20, so in particular raw
newlines) are rejected, escapes are decoded. Returns the decoded content
and the input remaining after the closing quote. The `\uXXXX` escape is
decoded with `Char.ofNat` (surrogate pairing is outside the model). -/
def parseStringBody : Nat → List Char → Option (List Char × List Char)
  | 0, _ => none
  | _ + 1, [] => none
  | fuel + 1, c :: rest =>
    if c = '"' then some ([], rest)
    else if c = '\\' then
      match rest with
      | [] => none
      | e :: rest2 =>
        if e = '"' then (parseStringBody fuel rest2).map fun p => ('"' :: p.1, p.2)
        else if e = '\\' then (parseStringBody fuel rest2).map fun p => ('\\' :: p.1, p.2)
        else if e = '/' then (parseStringBody fuel rest2).map fun p => ('/' :: p.1, p.2)
        else if e = 'b' then (parseStringBody fuel rest2).map fun p => ('\x08' :: p.1, p.2)
        else if e = 'f' then (parseStringBody fuel rest2).map fun p => ('\x0c' :: p.1, p.2)
        else if e = 'n' then (parseStringBody fuel rest2).map fun p => ('\n' :: p.1, p.2)
        else if e = 'r' then (parseStringBody fuel rest2).map fun p => ('\r' :: p.1, p.2)
        else if e = 't' then (parseStringBody fuel rest2).map fun p => ('\t' :: p.1, p.2)
        else if e = 'u' then
          match rest2 with
          | h1 :: h2 :: h3 :: h4 :: rest3 =>
            match hex4 h1 h2 h3 h4 with
            | some n =>
              (parseStringBody fuel rest3).map fun p => (Char.ofNat n :: p.1, p.2)
            | none => none
          | _ => none
        else none
    else if 0x20 ≤ c.toNat then
      (parseStringBody fuel rest).map fun p => (c :: p.1, p.2)
    else none

/-- String-literal body parser with self-sufficient fuel (each step consumes
at least one character, so `length + 1` always suffices). -/
def parseStr (l : List Char) : Option (List Char × List Char) :=
  parseStringBody (l.length + 1) l

/-- Numeric value of a digit list. -/
def digitsVal (ds : List Char) : Nat :=
  ds.foldl (fun a c => a * 10 + (c.toNat - 48)) 0

/-- Integer part of a JSON number: a single `0`, or a nonzero digit followed
by digits (leading zeros are rejected, as by the `json` module regex). -/
def parseIntPart : List Char → Option (List Char × List Char)
  | [] => none
  | c :: t =>
    if c = '0' then some ([c], t)
    else if isDigitChar c then
      some (c :: t.takeWhile isDigitChar, t.dropWhile isDigitChar)
    else none

/-- Optional fraction part `.digits`; on no match nothing is consumed. -/
def parseFracPart : List Char → List Char × List Char
  | [] => ([], [])
  | c :: t =>
    if c = '.' then
      let ds := t.takeWhile isDigitChar
      if ds = [] then ([], c :: t) else (c :: ds, t.dropWhile isDigitChar)
    else ([], c :: t)

/-- Optional exponent part `[eE][+-]?digits`; on no match nothing is
consumed. -/
def parseExpPart : List Char → List Char × List Char
  | c :: t =>
    if c = 'e' ∨ c = 'E' then
      match t with
      | s :: t2 =>
        if s = '+' ∨ s = '-' then
          let ds := t2.takeWhile isDigitChar
          if ds = [] then ([], c :: t)
          else (c :: s :: ds, t2.dropWhile isDigitChar)
        else
          let ds := t.takeWhile isDigitChar
          if ds = [] then ([], c :: t) else (c :: ds, t.dropWhile isDigitChar)
      | [] => ([], [c])
    else ([], c :: t)
  | [] => ([], [])

/-- Parse a JSON number after the optional sign. A pure integer lexeme
yields `Json.num`; fraction or exponent yields a `Json.numRaw` lexeme. -/
def parseNumberCore (neg : Bool) (l1 : List Char) : Option (Json × List Char) :=
  match parseIntPart l1 with
  | none => none
  | some (ds, r1) =>
    let fr := parseFracPart r1
    let ex := parseExpPart fr.2
    if fr.1 = [] ∧ ex.1 = [] then
      some (Json.num (if neg then -(digitsVal ds : Int) else (digitsVal ds : Int)), r1)
    else
      some (Json.numRaw (String.mk ((if neg then ['-'] else []) ++ ds ++ fr.1 ++ ex.1)), ex.2)

/-- Parse a JSON number starting at the current position, handling the
optional leading minus sign. -/
def parseNumber (l : List Char) : Option (Json × List Char) :=
  match l with
  | '-' :: t => parseNumberCore true t
  | _ => parseNumberCore false l

/-- Expect a fixed keyword continuation. -/
def expectLit (kw l : List Char) : Option (List Char) :=
  if leadEq kw l then some (l.drop kw.length) else none

mutual

/-- Parse one JSON value starting at a non-whitespace position, following
the dispatch of the `json` module scanner (strings, objects, arrays,
`true` / `false` / `null`, numbers, and the `NaN` / `Infinity` /
`-Infinity` constants Python accepts by default). -/
def parseValue : Nat → List Char → Option (Json × List Char)
  | 0, _ => none
  | fuel + 1, l =>
    match l with
    | [] => none
    | c :: t =>
      if c = '{' then
        match skipWsL t with
        | '}' :: r => some (Json.obj [], r)
        | l1 => parseMembers fuel l1 []
      else if c = '[' then
        match skipWsL t with
        | ']' :: r => some (Json.arr [], r)
        | l1 => parseElems fuel l1 []
      else if c = '"' then
        (parseStr t).map fun p => (Json.str (String.mk p.1), p.2)
      else if c = 't' then (expectLit "rue".data t).map fun r => (Json.bool true, r)
      else if c = 'f' then (expectLit "alse".data t).map fun r => (Json.bool false, r)
      else if c = 'n' then (expectLit "ull".data t).map fun r => (Json.null, r)
      else if c = 'N' then (expectLit "aN".data t).map fun r => (Json.numRaw "NaN", r)
      else if c = 'I' then
        (expectLit "nfinity".data t).map fun r => (Json.numRaw "Infinity", r)
      else if c = '-' then
        match t with
        | 'I' :: t2 =>
          (expectLit "nfinity".data t2).map fun r => (Json.numRaw "-Infinity", r)
        | _ => parseNumber (c :: t)
      else if isDigitChar c then parseNumber (c :: t)
      else none

/-- Parse the members of an object after the opening brace and leading
whitespace, starting at a key position. -/
def parseMembers : Nat → List Char → List (String × Json) → Option (Json × List Char)
  | 0, _, _ => none
  | fuel + 1, l, acc =>
    match l with
    | '"' :: t =>
      match parseStr t with
      | none => none
      | some (key, r1) =>
        match skipWsL r1 with
        | ':' :: r2 =>
          match parseValue fuel (skipWsL r2) with
          | none => none
          | some (v, r3) =>
            match skipWsL r3 with
            | ',' :: r4 => parseMembers fuel (skipWsL r4) (insertKV acc (String.mk key) v)
            | '}' :: r4 => some (Json.obj (insertKV acc (String.mk key) v), r4)
            | _ => none
        | _ => none
    | _ => none

/-- Parse the elements of an array after the opening bracket and leading
whitespace, starting at a value position. -/
def parseElems : Nat → List Char → List Json → Option (Json × List Char)
  | 0, _, _ => none
  | fuel + 1, l, acc =>
    match parseValue fuel l with
    | none => none
    | some (v, r1) =>
      match skipWsL r1 with
      | ',' :: r2 => parseElems fuel (skipWsL r2) (acc ++ [v])
      | ']' :: r2 => some (Json.arr (acc ++ [v]), r2)
      | _ => none

end

/-- Model of Python `json.loads` on character lists: skip whitespace, parse
one value, require only whitespace to remain. The fuel `length + 2` is
always sufficient because at least one character is consumed per unit of
fuel spent. -/
def parseJsonL (l : List Char) : Option Json :=
  match parseValue (l.length + 2) (skipWsL l) with
  | some (v, r) => if skipWsL r = [] then some v else none
  | none => none

/-- Model of Python `json.loads` on strings. -/
def parseJson (s : String) : Option Json := parseJsonL s.data

/-- Check whether a line, after Python `strip()`, starts with a markdown
fence marker, as in `line.strip().startswith("```")`. -/
def isFenceLine (m : List Char) : Bool := leadEq "```".data (pyStripL m)

/-- The fence-stripping loop of `validate_document`: walk the lines,
toggle an in-code-block flag on fence lines, and keep the lines inside
the block. -/
def scanLines : Bool → List (List Char) → List (List Char)
  | _, [] => []
  | inB, l :: ls =>
    if isFenceLine l then scanLines (!inB) ls
    else if inB then l :: scanLines inB ls
    else scanLines inB ls

/-- Markdown-fence removal of `validate_document` (src/validator.py lines
388-400): when the stripped response starts with a fence marker, split on
newlines, keep only lines inside fence-delimited blocks, and rejoin. -/
def stripFences (s : String) : String :=
  if isFenceLine s.data then String.mk (joinNl (scanLines false (splitNl s.data)))
  else s

/-- The degraded result object built by `validate_document` when JSON
parsing fails (src/validator.py lines 406-415); `stripped` is the
response text after fence removal. -/
def degradedResult (stripped : String) : Json :=
  Json.obj [
    ("overall_assessment", Json.obj [
      ("compliance_score", Json.num 0),
      ("overall_risk_level", Json.str "UNKNOWN"),
      ("executive_summary",
        Json.str "Unable to parse structured results. See raw analysis below.")]),
    ("raw_analysis", Json.str stripped),
    ("error", Json.str "JSON parsing failed - response may not be properly structured")]

/-- Response-normalization step of `validate_document`, as a function of
the raw text returned by the external model call (the prompt construction
and the network call itself are outside this function): strip markdown
fences, try a strict JSON parse, and fall back to the degraded result
object on failure. -/
def validate_document_response (response_text : String) : Json :=
  let stripped := stripFences response_text
  match parseJson stripped with
  | some j => j
  | none => degradedResult stripped

/-- One subsection entry of the CFR requirements catalog. -/
structure SubsectionReq where
  requirement : String
  key_elements : List String
  critical_keywords : List String

/-- One regulation entry of the CFR requirements catalog. -/
structure RegData where
  citation : String
  title : String
  subsections : List (String × SubsectionReq)

/-- The static catalog `CFR_REQUIREMENTS` of src/validator.py, with dict
insertion order kept as list order. -/
def CFR_REQUIREMENTS : List (String × RegData) := [
  ("21 CFR Part 820.70 - Production and Process Controls",
   { citation := "21 CFR 820.70",
     title := "Production and Process Controls",
     subsections := [
       ("820.70(a)",
        { requirement := "General - Written procedures for production and process controls",
          key_elements := [
            "Written procedures defining and controlling production processes",
            "Procedures ensure devices conform to specifications",
            "Monitoring and control of process parameters",
            "Adherence to procedures is ensured"],
          critical_keywords := ["procedures", "production", "specifications", "monitoring", "control"] }),
       ("820.70(b)",
        { requirement := "Production and process changes",
          key_elements := [
            "Changes reviewed and approved before implementation",
            "Impact on device specifications assessed",
            "Documentation of change control process",
            "Validation when required"],
          critical_keywords := ["change control", "approval", "validation", "impact assessment"] }),
       ("820.70(c)",
        { requirement := "Environmental control",
          key_elements := [
            "Environmental conditions controlled where necessary",
            "Monitoring procedures established",
            "Action limits defined",
            "Documentation of environmental controls"],
          critical_keywords := ["environmental control", "monitoring", "action limits", "cleanroom"] }),
       ("820.70(d)",
        { requirement := "Personnel",
          key_elements := [
            "Personnel qualified for assigned tasks",
            "Training documented",
            "Competency demonstrated",
            "Hygiene practices established"],
          critical_keywords := ["training", "qualification", "competency", "hygiene"] }),
       ("820.70(e)",
        { requirement := "Contamination control",
          key_elements := [
            "Procedures to prevent contamination",
            "Cleaning and sanitization protocols",
            "Sterility maintenance where required",
            "Documentation of contamination control"],
          critical_keywords := ["contamination", "cleaning", "sanitization", "sterility"] }),
       ("820.70(f)",
        { requirement := "Buildings",
          key_elements := [
            "Suitable building design for operations",
            "Space adequate for device manufacturing",
            "Orderly storage and handling",
            "Proper maintenance of facilities"],
          critical_keywords := ["facilities", "building", "space", "storage"] }),
       ("820.70(g)",
        { requirement := "Equipment",
          key_elements := [
            "Equipment suitable for intended use",
            "Calibration and maintenance schedules",
            "Adjustment and inspection documented",
            "Equipment qualification where needed"],
          critical_keywords := ["equipment", "calibration", "maintenance", "qualification"] }),
       ("820.70(h)",
        { requirement := "Manufacturing material",
          key_elements := [
            "Material handling procedures established",
            "Material identified and controlled",
            "Storage conditions appropriate",
            "Material traceability maintained"],
          critical_keywords := ["materials", "handling", "storage", "traceability"] }),
       ("820.70(i)",
        { requirement := "Automated processes",
          key_elements := [
            "Automated processes validated",
            "Software validation documented",
            "Output quality ensured",
            "Change control for automation"],
          critical_keywords := ["automation", "software validation", "computer system"] })] }),
  ("21 CFR Part 820.75 - Process Validation",
   { citation := "21 CFR 820.75",
     title := "Process Validation",
     subsections := [
       ("820.75(a)",
        { requirement := "General - Validation of processes where results cannot be fully verified",
          key_elements := [
            "Validation required for processes not fully verifiable by inspection/testing",
            "High degree of assurance established",
            "Approved methods and procedures",
            "Validation protocol documented"],
          critical_keywords := ["validation", "protocol", "high degree of assurance", "verification"] }),
       ("820.75(b)",
        { requirement := "Validation activities",
          key_elements := [
            "Validation performed by qualified personnel",
            "Validation protocol establishes methods and acceptance criteria",
            "Results documented and approved",
            "Revalidation when required"],
          critical_keywords := ["validation protocol", "acceptance criteria", "qualified personnel", "revalidation"] })] }),
  ("21 CFR Part 820.80 - Receiving, In-Process, and Finished Device Acceptance",
   { citation := "21 CFR 820.80",
     title := "Receiving, In-Process, and Finished Device Acceptance",
     subsections := [
       ("820.80(a)",
        { requirement := "General - Procedures for acceptance activities",
          key_elements := [
            "Written procedures for acceptance activities",
            "Acceptance criteria established",
            "Acceptance activities documented",
            "Product release authorization"],
          critical_keywords := ["acceptance", "procedures", "criteria", "release"] }),
       ("820.80(b)",
        { requirement := "Receiving acceptance activities",
          key_elements := [
            "Incoming product inspected or tested",
            "Acceptance status documented",
            "Supplier evaluation performed",
            "Nonconforming product identified"],
          critical_keywords := ["receiving inspection", "incoming", "supplier", "acceptance"] }),
       ("820.80(c)",
        { requirement := "In-process acceptance activities",
          key_elements := [
            "In-process inspections and tests performed",
            "Monitoring of process parameters",
            "Acceptance documented at specified stages",
            "Product identification maintained"],
          critical_keywords := ["in-process", "inspection", "monitoring", "stages"] }),
       ("820.80(d)",
        { requirement := "Final acceptance activities",
          key_elements := [
            "Final inspection and testing performed",
            "Complete DHR review before release",
            "All acceptance activities completed",
            "Release authorization documented"],
          critical_keywords := ["final inspection", "DHR", "release", "testing"] }),
       ("820.80(e)",
        { requirement := "Acceptance records",
          key_elements := [
            "Records identify inspector or tester",
            "Date of inspection documented",
            "Results recorded",
            "Acceptance/rejection decision clear"],
          critical_keywords := ["records", "inspector", "date", "results"] })] })]

/-- Catalog lookup of `FDAComplianceValidator.get_regulation_requirements`:
return the data of the first catalog key that contains `regulation` as a
substring (the loop tests `regulation in reg_key`). The empty-dict return
of the Python code is modelled as `none`. -/
def get_regulation_requirements (regulation : String) : Option RegData :=
  CFR_REQUIREMENTS.findSome? fun kv => if pyIn regulation kv.1 then some kv.2 else none

/-- ASCII lowercasing of one character (Python `str.lower()`; non-ASCII
casing is outside the model). -/
def lowerChar (c : Char) : Char :=
  if 'A' ≤ c ∧ c ≤ 'Z' then Char.ofNat (c.toNat + 32) else c

/-- Python `str.lower()`. -/
def pyLower (s : String) : String := String.mk (s.data.map lowerChar)

/-- One iteration of the key-element loop: append one bullet line. -/
def elemStep (a : String) (e : String) : String := a ++ "  - " ++ e ++ "\n"

/-- Inner loop of the subsection renderer: one bullet line per key
element. -/
def elementLines (es : List String) : String :=
  es.foldl elemStep ""

/-- One iteration of the subsection loop of `build_enhanced_prompt`. -/
def subStep (acc : String) (p : String × SubsectionReq) : String :=
  acc ++ "\n" ++ p.1 ++ ": " ++ p.2.requirement
    ++ "\nKey Elements to Verify:\n" ++ elementLines p.2.key_elements

/-- The `subsection_details` string built by `build_enhanced_prompt` from
the catalog entry. -/
def subsection_details (subs : List (String × SubsectionReq)) : String :=
  subs.foldl subStep ""

/-- Fixed schema block of the fallback prompt of `_build_basic_prompt`
(assessment and findings only). -/
def basicSchemaBlock : String :=
  "\x7b\n  \"overall_assessment\": \x7b\n    \"compliance_score\": <0-100>,\n    \"overall_risk_level\": \"HIGH|MEDIUM|LOW\",\n    \"executive_summary\": \"Brief summary\"\n  \x7d,\n  \"findings\": [\n    \x7b\n      \"cfr_citation\": \"21 CFR XXX.XX\",\n      \"finding\": \"Gap description\",\n      \"severity\": \"CRITICAL|MAJOR|MINOR\",\n      \"recommendation\": \"Specific action\"\n    \x7d\n  ]\n\x7d"

/-- Fallback prompt of `FDAComplianceValidator._build_basic_prompt`
(src/validator.py lines 324-351), used when the regulation is not in the
detailed requirements catalog. -/
def build_basic_prompt (document_text regulation detail_level : String) : String :=
  "You are an FDA regulatory compliance expert. Analyze the following medical device document against "
    ++ regulation ++ ".\n\nDocument Content:\n" ++ document_text
    ++ "\n\nProvide a " ++ pyLower detail_level
    ++ " analysis with valid JSON format:\n\n" ++ basicSchemaBlock
    ++ "\n\nReturn ONLY valid JSON.\n"

/-- Fixed schema block of the detailed prompt of `build_enhanced_prompt`
(the full ValidationResult schema). -/
def detailedSchemaBlock : String :=
  "\x7b\n  \"overall_assessment\": \x7b\n    \"compliance_score\": <0-100>,\n    \"overall_risk_level\": \"HIGH|MEDIUM|LOW\",\n    \"ready_for_fda_inspection\": true|false,\n    \"executive_summary\": \"Brief 2-3 sentence summary of compliance status\"\n  \x7d,\n  \"findings\": [\n    \x7b\n      \"cfr_citation\": \"21 CFR 820.XX(x)\",\n      \"requirement_description\": \"What the regulation requires\",\n      \"finding\": \"Specific gap or compliance observation found in the document\",\n      \"severity\": \"CRITICAL|MAJOR|MINOR\",\n      \"severity_justification\": \"Why this severity level was assigned based on FDA enforcement precedents\",\n      \"evidence\": \"Specific quotes or references from the document (or lack thereof)\",\n      \"risk_to_compliance\": \"What could happen if not addressed\",\n      \"recommendation\": \"Specific, actionable steps to address this finding\",\n      \"regulatory_precedent\": \"FDA enforcement examples or guidance documents that support this assessment\"\n    \x7d\n  ],\n  \"strengths\": [\n    \x7b\n      \"cfr_citation\": \"21 CFR 820.XX(x)\",\n      \"description\": \"What the document does well in terms of compliance\"\n    \x7d\n  ],\n  \"priority_actions\": [\n    \x7b\n      \"priority\": \"1|2|3\",\n      \"action\": \"Specific action to take\",\n      \"cfr_citation\": \"21 CFR 820.XX(x)\",\n      \"estimated_effort\": \"LOW|MEDIUM|HIGH\",\n      \"impact\": \"How this improves compliance\"\n    \x7d\n  ],\n  \"inspection_readiness\": \x7b\n    \"critical_gaps_count\": <number>,\n    \"major_gaps_count\": <number>,\n    \"minor_gaps_count\": <number>,\n    \"estimated_time_to_compliance\": \"Realistic estimate\",\n    \"inspection_risk_areas\": [\"List of areas that would likely receive scrutiny\"]\n  \x7d\n\x7d"

/-- Fixed severity-rubric segment of the detailed prompt. -/
def severityGuidelines : String :=
  "\n\nSEVERITY CLASSIFICATION GUIDELINES:\n- CRITICAL: Direct patient safety impact, missing required systems, likely FDA Warning Letter\n  Examples: Missing validation, no DHR system, inadequate CAPA\n\n- MAJOR: Significant compliance gap, likely FDA 483 observation, regulatory action possible\n  Examples: Incomplete procedures, inadequate training records, missing critical documentation\n\n- MINOR: Documentation improvement opportunity, low enforcement risk\n  Examples: Format inconsistencies, unclear wording, missing non-critical references\n\nDOCUMENT TO ANALYZE:\n"

/-- Fixed closing segment of the detailed prompt. -/
def detailedImportant : String :=
  "\n\nIMPORTANT:\n- Be thorough and cite specific CFR subsections\n- Base severity on real FDA enforcement precedents\n- Provide actionable, specific recommendations\n- Consider industry best practices beyond minimum compliance\n- Return ONLY valid JSON, no additional text or markdown formatting\n"

/-- The detailed prompt body of `build_enhanced_prompt` for a matched
catalog entry. -/
def detailedPrompt (rd : RegData) (document_text detail_level : String) : String :=
  "You are an FDA regulatory compliance expert with extensive experience in medical device inspections and 21 CFR Part 820 Quality System Regulations.\n\nREGULATION TO ASSESS: "
    ++ rd.title ++ " (" ++ rd.citation ++ ")\n\nDETAILED REQUIREMENTS:\n"
    ++ subsection_details rd.subsections
    ++ severityGuidelines ++ document_text
    ++ "\n\nANALYSIS REQUIREMENTS (" ++ detail_level
    ++ " level):\nProvide a thorough, structured analysis. You MUST respond with valid JSON in the following format:\n\n"
    ++ detailedSchemaBlock ++ detailedImportant

/-- `FDAComplianceValidator.build_enhanced_prompt`: detailed prompt when
the regulation resolves in the catalog, fallback prompt otherwise. -/
def build_enhanced_prompt (document_text regulation detail_level : String) : String :=
  match get_regulation_requirements regulation with
  | none => build_basic_prompt document_text regulation detail_level
  | some rd => detailedPrompt rd document_text detail_level

/-- Python exception kinds raised by the formatter model. -/
inductive PyErr where
  | typeError
  | attrError
  | keyError
deriving DecidableEq

mutual

/-- Structural equality of JSON values (used for Python `in` on lists;
Python dict equality is order-insensitive, which is approximated
order-sensitively here — unused by the claims). -/
def jsonBeq : Json → Json → Bool
  | Json.null, Json.null => true
  | Json.bool a, Json.bool b => a == b
  | Json.num a, Json.num b => a == b
  | Json.numRaw a, Json.numRaw b => a == b
  | Json.str a, Json.str b => a == b
  | Json.arr a, Json.arr b => jsonBeqList a b
  | Json.obj a, Json.obj b => jsonBeqFields a b
  | _, _ => false

/-- Elementwise equality of JSON lists. -/
def jsonBeqList : List Json → List Json → Bool
  | [], [] => true
  | a :: as, b :: bs => jsonBeq a b && jsonBeqList as bs
  | _, _ => false

/-- Pairwise equality of JSON object fields. -/
def jsonBeqFields : List (String × Json) → List (String × Json) → Bool
  | [], [] => true
  | (ka, va) :: as, (kb, vb) :: bs => ka == kb && jsonBeq va vb && jsonBeqFields as bs
  | _, _ => false

end

mutual

/-- Python `repr()` of a JSON-derived value (string escaping and float
formatting are approximated; unused by the claims). -/
def pyRepr : Json → String
  | Json.null => "None"
  | Json.bool b => if b then "True" else "False"
  | Json.num n => toString n
  | Json.numRaw s => s
  | Json.str s => "\x27" ++ s ++ "\x27"
  | Json.arr l => "[" ++ pyReprElems l ++ "]"
  | Json.obj kvs => "\x7b" ++ pyReprFields kvs ++ "\x7d"

/-- Comma-separated reprs of list elements. -/
def pyReprElems : List Json → String
  | [] => ""
  | [x] => pyRepr x
  | x :: xs => pyRepr x ++ ", " ++ pyReprElems xs

/-- Comma-separated reprs of object fields. -/
def pyReprFields : List (String × Json) → String
  | [] => ""
  | [(k, v)] => "\x27" ++ k ++ "\x27: " ++ pyRepr v
  | (k, v) :: xs => "\x27" ++ k ++ "\x27: " ++ pyRepr v ++ ", " ++ pyReprFields xs

end

/-- Python `str()` as used by f-string interpolation. -/
def pyStr : Json → String
  | Json.str s => s
  | j => pyRepr j

/-- Python truthiness of a JSON-derived value (`numRaw` float literals are
treated as truthy; a zero-valued float literal is outside the model). -/
def pyTruthy : Json → Bool
  | Json.null => false
  | Json.bool b => b
  | Json.num n => n != 0
  | Json.numRaw _ => true
  | Json.str s => s != ""
  | Json.arr l => !l.isEmpty
  | Json.obj kvs => !kvs.isEmpty

/-- First value stored under a key in an object field list. -/
def objLookup (kvs : List (String × Json)) (k : String) : Option Json :=
  kvs.findSome? fun p => if p.1 = k then some p.2 else none

/-- Python `d.get(k, default)`: AttributeError on a non-dict receiver. -/
def pyGetD (j : Json) (k : String) (dflt : Json) : Except PyErr Json :=
  match j with
  | Json.obj kvs => Except.ok ((objLookup kvs k).getD dflt)
  | _ => Except.error PyErr.attrError

/-- Python `d.get(k)` with its implicit `None` default. -/
def pyGetOpt (j : Json) (k : String) : Except PyErr Json := pyGetD j k Json.null

/-- Python `k in x` for a string key: key lookup on dicts, substring test
on strings, membership on lists, TypeError otherwise. -/
def pyHasKey (j : Json) (k : String) : Except PyErr Bool :=
  match j with
  | Json.obj kvs => Except.ok (objLookup kvs k).isSome
  | Json.str s => Except.ok (pyIn k s)
  | Json.arr l => Except.ok (l.any (jsonBeq (Json.str k)))
  | _ => Except.error PyErr.typeError

/-- Python `x[k]` for a string key. -/
def pyIndex (j : Json) (k : String) : Except PyErr Json :=
  match j with
  | Json.obj kvs =>
    match objLookup kvs k with
    | some v => Except.ok v
    | none => Except.error PyErr.keyError
  | _ => Except.error PyErr.typeError

/-- Python iteration over a value: lists yield elements, strings yield
one-character strings, dicts yield their keys, the rest raises
TypeError. -/
def pyIter (j : Json) : Except PyErr (List Json) :=
  match j with
  | Json.arr l => Except.ok l
  | Json.str s => Except.ok (s.data.map fun c => Json.str (String.mk [c]))
  | Json.obj kvs => Except.ok (kvs.map fun p => Json.str p.1)
  | _ => Except.error PyErr.typeError

/-- Numeric view of a value for Python `<`: ints compare as ints and bools
coerce to 0/1. -/
def jsonToIntQ : Json → Option Int
  | Json.num n => some n
  | Json.bool b => some (if b then 1 else 0)
  | _ => none

/-- Python `a < b` on sort keys: int/bool pairs compare numerically,
strings compare lexicographically by code point, every other combination
raises TypeError (float `numRaw` and sequence comparisons are outside the
model and also mapped to TypeError; the claims do not exercise them). -/
def pyLt (a b : Json) : Except PyErr Bool :=
  match jsonToIntQ a, jsonToIntQ b with
  | some x, some y => Except.ok (decide (x < y))
  | _, _ =>
    match a, b with
    | Json.str x, Json.str y => Except.ok (decide (x < y))
    | _, _ => Except.error PyErr.typeError

/-- Insert an (element, key) pair into an already sorted list, after every
element whose key is strictly below the new key — the stable ascending
placement of `sorted`. -/
def insertSorted (x : Json × Json) : List (Json × Json) → Except PyErr (List (Json × Json))
  | [] => Except.ok [x]
  | y :: t =>
    match pyLt y.2 x.2 with
    | Except.error e => Except.error e
    | Except.ok b =>
      if b then
        match insertSorted x t with
        | Except.error e => Except.error e
        | Except.ok s => Except.ok (y :: s)
      else
        Except.ok (x :: y :: t)

/-- Stable ascending insertion sort on (element, key) pairs. It agrees
with CPython `sorted` whenever all keys are mutually comparable (both are
stable ascending sorts); when keys are only partially comparable the exact
set of comparisons attempted may differ from Timsort, but on two-element
incomparable inputs both raise TypeError. -/
def sortKeyed : List (Json × Json) → Except PyErr (List (Json × Json))
  | [] => Except.ok []
  | x :: xs =>
    match sortKeyed xs with
    | Except.error e => Except.error e
    | Except.ok s => insertSorted x s

/-- Sort key of `format_results_for_display`:
`lambda x: x.get('priority', 999)`. -/
def actionKey (a : Json) : Except PyErr Json := pyGetD a "priority" (Json.num 999)

/-- Pair each action with its sort key, in list order, stopping at the
first error — Python applies the key function to every element before
sorting. -/
def keyedActions : List Json → Except PyErr (List (Json × Json))
  | [] => Except.ok []
  | a :: as =>
    match actionKey a with
    | Except.error e => Except.error e
    | Except.ok k =>
      match keyedActions as with
      | Except.error e => Except.error e
      | Except.ok t => Except.ok ((a, k) :: t)

/-- The call `sorted(priority_actions, key=lambda x: x.get('priority', 999))`:
keys are computed once per element first (so key-extraction errors surface
before any comparison, as in CPython), then a stable ascending sort runs on
the keys. -/
def pySortActions (actions : List Json) : Except PyErr (List Json) :=
  match keyedActions actions with
  | Except.error e => Except.error e
  | Except.ok keyed =>
    match sortKeyed keyed with
    | Except.error e => Except.error e
    | Except.ok s => Except.ok (s.map Prod.fst)

/-- The `"=" * 60` separator line. -/
def sepLine : String := String.mk (List.replicate 60 '=')

/-- Lines for one finding (src/validator.py lines 458-466). The fields
`evidence` and `severity_justification` are never rendered by the code;
`regulatory_precedent` is rendered only when present and truthy. -/
def fmtFinding (i : Nat) (finding : Json) : Except PyErr (List String) := do
  let cfr ← pyGetD finding "cfr_citation" (Json.str "N/A")
  let sev ← pyGetD finding "severity" (Json.str "N/A")
  let req ← pyGetD finding "requirement_description" (Json.str "N/A")
  let fnd ← pyGetD finding "finding" (Json.str "N/A")
  let risk ← pyGetD finding "risk_to_compliance" (Json.str "N/A")
  let recommend ← pyGetD finding "recommendation" (Json.str "N/A")
  let prec ← pyGetOpt finding "regulatory_precedent"
  let base := [
    "\n[" ++ toString i ++ "] " ++ pyStr cfr ++ " - " ++ pyStr sev,
    "Requirement: " ++ pyStr req,
    "Finding: " ++ pyStr fnd,
    "Risk: " ++ pyStr risk,
    "Recommendation: " ++ pyStr recommend]
  if pyTruthy prec then
    pure (base ++ ["Regulatory Precedent: " ++ pyStr prec])
  else
    pure base

/-- Render the findings with 1-based enumeration. -/
def fmtFindings : Nat → List Json → Except PyErr (List String)
  | _, [] => pure []
  | i, f :: fs => do
    let a ← fmtFinding i f
    let b ← fmtFindings (i + 1) fs
    pure (a ++ b)

/-- One strengths line (src/validator.py line 475). -/
def fmtStrength (s : Json) : Except PyErr String := do
  let cfr ← pyGetD s "cfr_citation" (Json.str "N/A")
  let desc ← pyGetD s "description" (Json.str "N/A")
  pure ("✓ " ++ pyStr cfr ++ ": " ++ pyStr desc)

/-- Lines for one priority action (src/validator.py lines 484-486). -/
def fmtAction (a : Json) : Except PyErr (List String) := do
  let pri ← pyGetD a "priority" (Json.str "N/A")
  let cfr ← pyGetD a "cfr_citation" (Json.str "N/A")
  let act ← pyGetD a "action" (Json.str "N/A")
  let eff ← pyGetD a "estimated_effort" (Json.str "N/A")
  let imp ← pyGetD a "impact" (Json.str "N/A")
  pure ["\nPriority " ++ pyStr pri ++ " - " ++ pyStr cfr,
        "Action: " ++ pyStr act,
        "Effort: " ++ pyStr eff ++ " | Impact: " ++ pyStr imp]

/-- Inspection-readiness section (src/validator.py lines 436-449). -/
def fmtIR (ir : Json) : Except PyErr (List String) := do
  let cg ← pyGetD ir "critical_gaps_count" (Json.num 0)
  let mg ← pyGetD ir "major_gaps_count" (Json.num 0)
  let ng ← pyGetD ir "minor_gaps_count" (Json.num 0)
  let est ← pyGetD ir "estimated_time_to_compliance" (Json.str "N/A")
  let areas ← pyGetOpt ir "inspection_risk_areas"
  let base := ["\n" ++ sepLine, "INSPECTION READINESS SUMMARY", sepLine,
    "Critical Gaps: " ++ pyStr cg,
    "Major Gaps: " ++ pyStr mg,
    "Minor Gaps: " ++ pyStr ng,
    "Estimated Time to Compliance: " ++ pyStr est]
  if pyTruthy areas then do
    let items ← pyIter areas
    pure (base ++ ["\nHigh-Risk Areas for Inspection:"]
      ++ items.map fun a => "  • " ++ pyStr a)
  else
    pure base

/-- Python `'\n'.join(output)`. -/
def joinLines (ls : List String) : String :=
  String.mk (joinNl (ls.map fun s => s.data))

/-- The Overall Assessment section lines (src/validator.py lines 425-433),
always rendered, with `N/A` fallbacks for the score, risk level and
readiness flag and an empty fallback for the executive summary. -/
def assessmentLines (results : Json) : Except PyErr (List String) :=
  match pyGetD results "overall_assessment" (Json.obj []) with
  | Except.error e => Except.error e
  | Except.ok assessment =>
    match pyGetD assessment "compliance_score" (Json.str "N/A") with
    | Except.error e => Except.error e
    | Except.ok score =>
      match pyGetD assessment "overall_risk_level" (Json.str "N/A") with
      | Except.error e => Except.error e
      | Except.ok risk =>
        match pyGetD assessment "ready_for_fda_inspection" (Json.str "N/A") with
        | Except.error e => Except.error e
        | Except.ok ready =>
          match pyGetD assessment "executive_summary" (Json.str "") with
          | Except.error e => Except.error e
          | Except.ok summ =>
            Except.ok [sepLine, "OVERALL COMPLIANCE ASSESSMENT", sepLine,
              "Compliance Score: " ++ pyStr score ++ "%",
              "Overall Risk Level: " ++ pyStr risk,
              "FDA Inspection Ready: " ++ pyStr ready,
              "\n" ++ pyStr summ]

/-- The conditional Inspection Readiness section: rendered only when the
`inspection_readiness` key is present. -/
def irSection (results : Json) : Except PyErr (List String) :=
  match pyHasKey results "inspection_readiness" with
  | Except.error e => Except.error e
  | Except.ok true =>
    match pyIndex results "inspection_readiness" with
    | Except.error e => Except.error e
    | Except.ok ir => fmtIR ir
  | Except.ok false => Except.ok []

/-- The conditional Detailed Findings section: rendered only when
`findings` is present and truthy. -/
def findingsSection (results : Json) : Except PyErr (List String) :=
  match pyGetD results "findings" (Json.arr []) with
  | Except.error e => Except.error e
  | Except.ok findings =>
    if pyTruthy findings then
      match pyIter findings with
      | Except.error e => Except.error e
      | Except.ok fl =>
        match fmtFindings 1 fl with
        | Except.error e => Except.error e
        | Except.ok body =>
          Except.ok (["\n" ++ sepLine, "DETAILED FINDINGS", sepLine] ++ body)
    else Except.ok []

/-- The conditional Compliance Strengths section: rendered only when
`strengths` is present and truthy. -/
def strengthsSection (results : Json) : Except PyErr (List String) :=
  match pyGetD results "strengths" (Json.arr []) with
  | Except.error e => Except.error e
  | Except.ok strengths =>
    if pyTruthy strengths then
      match pyIter strengths with
      | Except.error e => Except.error e
      | Except.ok sl =>
        match sl.mapM fmtStrength with
        | Except.error e => Except.error e
        | Except.ok body =>
          Except.ok (["\n" ++ sepLine, "COMPLIANCE STRENGTHS", sepLine] ++ body)
    else Except.ok []

/-- The conditional Priority Actions section: rendered only when
`priority_actions` is present and truthy, in the order produced by the
priority sort. -/
def prioritySection (results : Json) : Except PyErr (List String) :=
  match pyGetD results "priority_actions" (Json.arr []) with
  | Except.error e => Except.error e
  | Except.ok pa =>
    if pyTruthy pa then
      match pyIter pa with
      | Except.error e => Except.error e
      | Except.ok pl =>
        match pySortActions pl with
        | Except.error e => Except.error e
        | Except.ok sortedA =>
          match sortedA.mapM fmtAction with
          | Except.error e => Except.error e
          | Except.ok blocks =>
            Except.ok (["\n" ++ sepLine, "PRIORITY ACTIONS", sepLine] ++ blocks.flatten)
    else Except.ok []

/-- `FDAComplianceValidator.format_results_for_display`
(src/validator.py lines 417-488). A degraded result (any result carrying
an `error` key) short-circuits to its `raw_analysis` text; otherwise the
sections are rendered in order — Inspection Readiness whenever its key is
present (the code tests `"inspection_readiness" in results`), the other
optional sections only when their data is present and truthy — and the
collected lines are joined with newlines.
A Python exception escaping the function (for example the TypeError of the
priority sort) is modelled as `Except.error`. -/
def format_results_for_display (results : Json) : Except PyErr String :=
  match pyHasKey results "error" with
  | Except.error e => Except.error e
  | Except.ok true =>
    match pyGetD results "raw_analysis" (Json.str "Analysis failed") with
    | Except.error e => Except.error e
    | Except.ok ra => Except.ok (pyStr ra)
  | Except.ok false =>
    match assessmentLines results with
    | Except.error e => Except.error e
    | Except.ok out1 =>
      match irSection results with
      | Except.error e => Except.error e
      | Except.ok out2 =>
        match findingsSection results with
        | Except.error e => Except.error e
        | Except.ok out3 =>
          match strengthsSection results with
          | Except.error e => Except.error e
          | Except.ok out4 =>
            match prioritySection results with
            | Except.error e => Except.error e
            | Except.ok out5 =>
              Except.ok (joinLines (out1 ++ out2 ++ out3 ++ out4 ++ out5))

/-- The 820.75(a) subsection, restated for the C5 witness; `rfl` below
checks it against the catalog. -/
def sub_820_75_a : SubsectionReq :=
  { requirement := "General - Validation of processes where results cannot be fully verified",
    key_elements := [
      "Validation required for processes not fully verifiable by inspection/testing",
      "High degree of assurance established",
      "Approved methods and procedures",
      "Validation protocol documented"],
    critical_keywords := ["validation", "protocol", "high degree of assurance", "verification"] }

/-- The 820.75(b) subsection, restated for the C5 witness. -/
def sub_820_75_b : SubsectionReq :=
  { requirement := "Validation activities",
    key_elements := [
      "Validation performed by qualified personnel",
      "Validation protocol establishes methods and acceptance criteria",
      "Results documented and approved",
      "Revalidation when required"],
    critical_keywords := ["validation protocol", "acceptance criteria", "qualified personnel", "revalidation"] }

/-- The 820.75 catalog entry, restated for the C5 witness. -/
def reg_820_75 : RegData :=
  { citation := "21 CFR 820.75",
    title := "Process Validation",
    subsections := [("820.75(a)", sub_820_75_a), ("820.75(b)", sub_820_75_b)] }

/-- The integer value that the priority sort key assigns to an action
whose priority is an integer or missing (999 for missing, matching the
default of `x.get('priority', 999)`). -/
def keyIntOf (a : Json) : Int :=
  match a with
  | Json.obj kvs =>
    match objLookup kvs "priority" with
    | some (Json.num n) => n
    | some _ => 999
    | none => 999
  | _ => 999

/-- Whether an action carries a `priority` field. -/
def hasPriority (a : Json) : Bool :=
  match a with
  | Json.obj kvs => (objLookup kvs "priority").isSome
  | _ => false

/-- Invariant of the (element, key) pairs fed to the sort: the stored key
is the integer sort key of the element. -/
def PairOk (p : Json × Json) : Prop := p.2 = Json.num (keyIntOf p.1)

/-- Index of the first occurrence of a segment, for stating rendering
order. -/
def firstAt (needle : List Char) : List Char → Option Nat
  | [] => if leadEq needle [] then some 0 else none
  | c :: t => if leadEq needle (c :: t) then some 0 else (firstAt needle t).map (· + 1)

/-- Whether segment `a` first occurs strictly before segment `b` in `s`. -/
def beforeIn (s a b : String) : Bool :=
  match firstAt a.data s.data, firstAt b.data s.data with
  | some i, some j => decide (i < j)
  | _, _ => false

/-- Non-degraded result whose priority actions carry priorities 3, 1, 2
(in that stored order), for the rendering-order part of C6. -/
def resultsPriorities312 : Json :=
  Json.obj [("overall_assessment", Json.obj []), ("priority_actions", Json.arr [
    Json.obj [("priority", Json.num 3), ("action", Json.str "ACT-A")],
    Json.obj [("priority", Json.num 1), ("action", Json.str "ACT-B")],
    Json.obj [("priority", Json.num 2), ("action", Json.str "ACT-C")]])]

/-- Non-degraded result mixing a priority-1000 action with an action that
has no priority field, for the C6 counterexample. -/
def resultsPriority1000 : Json :=
  Json.obj [("overall_assessment", Json.obj []), ("priority_actions", Json.arr [
    Json.obj [("priority", Json.num 1000), ("action", Json.str "ACT-ONE")],
    Json.obj [("action", Json.str "ACT-TWO")]])]

/-- Non-degraded result with an empty assessment and one finding that has
only `evidence` and `severity_justification` set, for the C7 rendering
facts. -/
def resultsFindingDemo : Json :=
  Json.obj [("overall_assessment", Json.obj []),
    ("findings", Json.arr [Json.obj [
      ("evidence", Json.str "EVMARK"),
      ("severity_justification", Json.str "SJMARK")]])]

/-- Non-degraded result carrying only an overall assessment, for the C7
counterexample. -/
def resultsAssessmentOnly : Json :=
  Json.obj [("overall_assessment", Json.obj [("compliance_score", Json.num 50)])]

/-- Every character is Python whitespace. -/
def allPyWs (l : List Char) : Prop := ∀ c ∈ l, isPyWs c = true

/-- A character that can neither be stripped by `strip()` nor start a
fence marker: non-whitespace and not a backtick. -/
def Good (c : Char) : Prop := isPyWs c = false ∧ c ≠ '\x60'

/-- The segment is whitespace followed by a Good character (and anything
after), or whitespace throughout. A line whose text satisfies this cannot
satisfy `line.strip().startswith("```")`. -/
def WG (l : List Char) : Prop :=
  (∃ w g r, l = w ++ g :: r ∧ allPyWs w ∧ Good g) ∨ allPyWs l

/-- Invariant of text produced by a successful JSON parse: every suffix
that follows a newline satisfies `WG`, and so does the whole text. -/
def Q (l : List Char) : Prop :=
  (∀ a b, l = a ++ '\n' :: b → WG b) ∧ WG l

instance goodDecidable (c : Char) : Decidable (Good c) :=
  inferInstanceAs (Decidable (_ ∧ _))

theorem leadEq_iff (n h : List Char) : leadEq n h = true ↔ ∃ t, h = n ++ t := by
  induction n generalizing h with
  | nil => simp [leadEq]
  | cons a as ih =>
    cases h with
    | nil => simp [leadEq]
    | cons b bs =>
      simp only [leadEq, Bool.and_eq_true, beq_iff_eq, ih]
      constructor
      · rintro ⟨rfl, t, rfl⟩; exact ⟨t, rfl⟩
      · rintro ⟨t, ht⟩
        injection ht with h1 h2
        exact ⟨h1.symm, t, h2⟩

theorem hasSub_iff (n h : List Char) :
    hasSub n h = true ↔ ∃ a b, h = a ++ n ++ b := by
  induction h with
  | nil =>
    simp only [hasSub, leadEq_iff]
    constructor
    · rintro ⟨t, ht⟩
      exact ⟨[], t, by simpa using ht⟩
    · rintro ⟨a, b, hab⟩
      cases a with
      | nil => exact ⟨b, by simpa using hab⟩
      | cons x xs => simp at hab
  | cons c t ih =>
    simp only [hasSub, Bool.or_eq_true, leadEq_iff, ih]
    constructor
    · rintro (⟨u, hu⟩ | ⟨a, b, hab⟩)
      · exact ⟨[], u, by simpa using hu⟩
      · exact ⟨c :: a, b, by simp [hab]⟩
    · rintro ⟨a, b, hab⟩
      cases a with
      | nil => exact Or.inl ⟨b, by simpa using hab⟩
      | cons x xs =>
        right
        simp only [List.cons_append] at hab
        injection hab with h1 h2
        exact ⟨xs, b, h2⟩

theorem pyIn_iff (n h : String) :
    pyIn n h = true ↔ ∃ a b, h.data = a ++ n.data ++ b :=
  hasSub_iff n.data h.data

theorem splitNl_ne_nil (l : List Char) : splitNl l ≠ [] := by
  cases l with
  | nil => simp [splitNl]
  | cons c t =>
    simp only [splitNl]
    split
    · simp
    · split
      · simp
      · simp

theorem joinNl_cons (l : List Char) (r : List (List Char)) (hr : r ≠ []) :
    joinNl (l :: r) = l ++ '\n' :: joinNl r := by
  cases r with
  | nil => exact absurd rfl hr
  | cons x xs => rfl

theorem joinNl_splitNl (l : List Char) : joinNl (splitNl l) = l := by
  induction l with
  | nil => rfl
  | cons c t ih =>
    simp only [splitNl]
    split
    · rename_i hc
      subst hc
      rw [joinNl_cons _ _ (splitNl_ne_nil t), ih]
      rfl
    · rename_i hc
      cases hs : splitNl t with
      | nil => exact absurd hs (splitNl_ne_nil t)
      | cons h r =>
        rw [hs] at ih
        cases r with
        | nil =>
          simp only [joinNl] at ih ⊢
          rw [ih]
        | cons h2 r2 =>
          rw [joinNl_cons _ _ (by simp)]
          rw [joinNl_cons _ _ (by simp)] at ih
          simp [ih]

theorem splitNl_append (a b : List Char) :
    splitNl (a ++ '\n' :: b) = splitNl a ++ splitNl b := by
  induction a with
  | nil => simp [splitNl]
  | cons c t ih =>
    by_cases hc : c = '\n'
    · subst hc
      simp [splitNl, ih]
    · cases hs : splitNl t with
      | nil => exact absurd hs (splitNl_ne_nil t)
      | cons h r =>
        simp only [List.cons_append, splitNl, if_neg hc]
        have ih' : splitNl (t.append ('\n' :: b)) = splitNl t ++ splitNl b := ih
        rw [ih', hs]
        rfl

theorem splitNl_head {t : List Char} {h : List Char} {r : List (List Char)}
    (hs : splitNl t = h :: r) : ∃ u, t = h ++ u := by
  induction t generalizing h r with
  | nil =>
    simp [splitNl] at hs
    exact ⟨[], by simp [hs.1]⟩
  | cons c t' ih =>
    simp only [splitNl] at hs
    split at hs
    · rename_i hc
      injection hs with h1 h2
      exact ⟨c :: t', by simp [← h1]⟩
    · rename_i hc
      cases hs' : splitNl t' with
      | nil => exact absurd hs' (splitNl_ne_nil t')
      | cons h' r' =>
        rw [hs'] at hs
        injection hs with h1 h2
        obtain ⟨u, hu⟩ := ih hs'
        exact ⟨u, by simp [← h1, hu]⟩

theorem splitNl_mem_aux (l : List Char) :
    (∀ m ∈ splitNl l, (∃ r, l = m ++ r) ∨ (∃ a r, l = a ++ '\n' :: (m ++ r)))
    ∧ (∀ m ∈ (splitNl l).drop 1, ∃ a r, l = a ++ '\n' :: (m ++ r)) := by
  induction l with
  | nil =>
    constructor
    · intro m hm
      simp [splitNl] at hm
      exact Or.inl ⟨[], by simp [hm]⟩
    · intro m hm
      simp [splitNl] at hm
  | cons c t ih =>
    by_cases hc : c = '\n'
    · subst hc
      have key : ∀ m ∈ splitNl t, ∃ a r, '\n' :: t = a ++ '\n' :: (m ++ r) := by
        intro m hm
        rcases ih.1 m hm with ⟨r, hr⟩ | ⟨a, r, har⟩
        · exact ⟨[], r, by simp [hr]⟩
        · exact ⟨'\n' :: a, r, by simp [har]⟩
      constructor
      · intro m hm
        simp only [splitNl, if_pos rfl] at hm
        rcases List.mem_cons.mp hm with rfl | hm'
        · exact Or.inl ⟨'\n' :: t, rfl⟩
        · exact Or.inr (key m hm')
      · intro m hm
        simp only [splitNl, if_pos rfl, List.drop_succ_cons, List.drop_zero] at hm
        exact key m hm
    · cases hs : splitNl t with
      | nil => exact absurd hs (splitNl_ne_nil t)
      | cons h r =>
        have hsl : splitNl (c :: t) = (c :: h) :: r := by
          simp only [splitNl, if_neg hc, hs]
        have tailcase : ∀ m ∈ r, ∃ a u, c :: t = a ++ '\n' :: (m ++ u) := by
          intro m hm
          have hm' : m ∈ (splitNl t).drop 1 := by rw [hs]; simpa using hm
          obtain ⟨a, u, hau⟩ := ih.2 m hm'
          exact ⟨c :: a, u, by simp [hau]⟩
        constructor
        · intro m hm
          rw [hsl] at hm
          rcases List.mem_cons.mp hm with rfl | hm'
          · obtain ⟨u, hu⟩ := splitNl_head hs
            exact Or.inl ⟨u, by simp [hu]⟩
          · exact Or.inr (tailcase m hm')
        · intro m hm
          rw [hsl] at hm
          simp only [List.drop_succ_cons, List.drop_zero] at hm
          exact tailcase m hm

theorem splitNl_mem {m l : List Char} (hm : m ∈ splitNl l) :
    (∃ r, l = m ++ r) ∨ (∃ a r, l = a ++ '\n' :: (m ++ r)) :=
  (splitNl_mem_aux l).1 m hm

example : parseJson "\x7b\"a\": 1\x7d" = some (Json.obj [("a", Json.num 1)]) := rfl

example : parseJson "  [1, -2, \"x\"]  " =
    some (Json.arr [Json.num 1, Json.num (-2), Json.str "x"]) := rfl

example : parseJson "not json" = none := rfl

example : parseJson "" = none := rfl

example : parseJson "\x7b\"a\":" = none := rfl

example : parseJson "42" = some (Json.num 42) := rfl

example : parseJson "1.5" = some (Json.numRaw "1.5") := rfl

example : parseJson "true" = some (Json.bool true) := rfl

example : parseJson "\x7b\"a\": 1, \"a\": 2\x7d" = some (Json.obj [("a", Json.num 2)]) := rfl

example : parseJson "01" = none := rfl

example : parseJson "\x7b\"a\": \"b\\nc\"\x7d" =
    some (Json.obj [("a", Json.str "b\nc")]) := rfl

example : parseJson "\x7b\"a\": \"b\nc\"\x7d" = none := rfl

theorem pyIn_append_right {n h : String} (g : String) (hn : pyIn n h = true) :
    pyIn n (h ++ g) = true := by
  rw [pyIn_iff] at hn ⊢
  obtain ⟨a, b, hab⟩ := hn
  exact ⟨a, b ++ g.data, by simp [String.data_append, hab]⟩

theorem pyIn_append_left {n h : String} (g : String) (hn : pyIn n h = true) :
    pyIn n (g ++ h) = true := by
  rw [pyIn_iff] at hn ⊢
  obtain ⟨a, b, hab⟩ := hn
  exact ⟨g.data ++ a, b, by simp [String.data_append, hab]⟩

theorem pyIn_self (n : String) : pyIn n n = true := by
  rw [pyIn_iff]
  exact ⟨[], [], by simp⟩

theorem pyIn_elemStep {n acc : String} (e : String) (h : pyIn n acc = true) :
    pyIn n (elemStep acc e) = true :=
  pyIn_append_right _ (pyIn_append_right _ (pyIn_append_right _ h))

theorem pyIn_subStep {n acc : String} (p : String × SubsectionReq)
    (h : pyIn n acc = true) : pyIn n (subStep acc p) = true :=
  pyIn_append_right _ (pyIn_append_right _ (pyIn_append_right _
    (pyIn_append_right _ (pyIn_append_right _ (pyIn_append_right _ h)))))

theorem pyIn_elem_foldl {n : String} (es : List String) (acc : String)
    (h : pyIn n acc = true) : pyIn n (es.foldl elemStep acc) = true := by
  induction es generalizing acc with
  | nil => exact h
  | cons e es ih => exact ih _ (pyIn_elemStep e h)

theorem pyIn_sub_foldl {n : String} (l : List (String × SubsectionReq))
    (acc : String) (h : pyIn n acc = true) :
    pyIn n (l.foldl subStep acc) = true := by
  induction l generalizing acc with
  | nil => exact h
  | cons p l ih => exact ih _ (pyIn_subStep p h)

theorem elem_in_elementLines {e : String} {es : List String} (he : e ∈ es)
    (acc : String) : pyIn e (es.foldl elemStep acc) = true := by
  induction es generalizing acc with
  | nil => cases he
  | cons x xs ih =>
    rcases List.mem_cons.mp he with rfl | he'
    · exact pyIn_elem_foldl xs _
        (pyIn_append_right _ (pyIn_append_left _ (pyIn_self e)))
    · exact ih he' _

theorem req_in_sub_foldl {sk : String} {sd : SubsectionReq}
    {l : List (String × SubsectionReq)} (hm : (sk, sd) ∈ l) (acc : String) :
    pyIn sd.requirement (l.foldl subStep acc) = true := by
  induction l generalizing acc with
  | nil => cases hm
  | cons p t ih =>
    rcases List.mem_cons.mp hm with rfl | hm'
    · exact pyIn_sub_foldl t _ (pyIn_append_right _ (pyIn_append_right _
        (pyIn_append_left _ (pyIn_self sd.requirement))))
    · exact ih hm' _

theorem elem_in_sub_foldl {sk : String} {sd : SubsectionReq} {e : String}
    {l : List (String × SubsectionReq)} (hm : (sk, sd) ∈ l)
    (he : e ∈ sd.key_elements) (acc : String) :
    pyIn e (l.foldl subStep acc) = true := by
  induction l generalizing acc with
  | nil => cases hm
  | cons p t ih =>
    rcases List.mem_cons.mp hm with rfl | hm'
    · exact pyIn_sub_foldl t _ (pyIn_append_left _ (elem_in_elementLines he ""))
    · exact ih hm' _

theorem lookup_none_iff (reg : String) :
    get_regulation_requirements reg = none
      ↔ (CFR_REQUIREMENTS.all fun kv => !(pyIn reg kv.1)) = true := by
  unfold get_regulation_requirements
  rw [List.all_eq_true]
  generalize CFR_REQUIREMENTS = L
  induction L with
  | nil => simp
  | cons kv t ih =>
    rw [List.findSome?_cons]
    by_cases hk : pyIn reg kv.1 = true
    · simp [hk]
    · rw [Bool.not_eq_true] at hk
      simp only [hk, Bool.false_eq_true, if_false, ih, List.mem_cons]
      constructor
      · intro hall x hx
        rcases hx with rfl | hx'
        · simp [hk]
        · exact hall x hx'
      · intro hall x hx
        exact hall x (Or.inr hx)

/-- C1 counterexample: the identifier `"820.70"` contains no catalog key as
a substring, yet `get_regulation_requirements` resolves it (the code tests
`regulation in reg_key`, so the identifier only has to be a substring of a
key, the reverse of the claimed direction). -/
theorem c1_counterexample :
    (CFR_REQUIREMENTS.all fun kv => !(pyIn kv.1 "820.70")) = true
    ∧ (get_regulation_requirements "820.70").isSome = true :=
  ⟨rfl, rfl⟩

/-- C1 amended: catalog lookup succeeds exactly when the identifier is a
substring of one of the known regulation keys (the containment direction
of `regulation in reg_key`); identifiers that are a substring of no key
yield the empty result and route prompt construction to the fallback
prompt. -/
theorem c1_lookup_characterization (reg : String) :
    (get_regulation_requirements reg = none
      ↔ (CFR_REQUIREMENTS.all fun kv => !(pyIn reg kv.1)) = true)
    ∧ (get_regulation_requirements reg = none →
        ∀ d l, build_enhanced_prompt d reg l = build_basic_prompt d reg l) := by
  refine ⟨lookup_none_iff reg, fun hn d l => ?_⟩
  unfold build_enhanced_prompt
  rw [hn]

/-- Witness for C1: the unknown identifier from the spec routes to the
fallback prompt. -/
theorem c1_lookup_characterization_witness :
    get_regulation_requirements "21 CFR Part 999.99 - Made Up" = none
    ∧ build_enhanced_prompt "D" "21 CFR Part 999.99 - Made Up" "Standard"
        = build_basic_prompt "D" "21 CFR Part 999.99 - Made Up" "Standard" := by
  have h := c1_lookup_characterization "21 CFR Part 999.99 - Made Up"
  have hn : get_regulation_requirements "21 CFR Part 999.99 - Made Up" = none :=
    h.1.mpr rfl
  exact ⟨hn, h.2 hn "D" "Standard"⟩

/-- C4: an identifier matching no catalog key makes `build_enhanced_prompt`
return the reduced generic prompt of `_build_basic_prompt`, whose fixed
schema block omits `inspection_readiness`, `priority_actions` and
`strengths` and offers only assessment plus findings. -/
theorem c4_fallback_prompt (document_text regulation detail_level : String)
    (h : (CFR_REQUIREMENTS.all fun kv => !(pyIn regulation kv.1)) = true) :
    build_enhanced_prompt document_text regulation detail_level
      = build_basic_prompt document_text regulation detail_level
    ∧ pyIn "inspection_readiness" basicSchemaBlock = false
    ∧ pyIn "priority_actions" basicSchemaBlock = false
    ∧ pyIn "strengths" basicSchemaBlock = false
    ∧ pyIn "overall_assessment" basicSchemaBlock = true
    ∧ pyIn "findings" basicSchemaBlock = true := by
  refine ⟨?_, rfl, rfl, rfl, rfl, rfl⟩
  have hn := (lookup_none_iff regulation).mpr h
  unfold build_enhanced_prompt
  rw [hn]

/-- Witness for C4 at the spec example identifier. -/
theorem c4_fallback_prompt_witness :
    build_enhanced_prompt "DOC" "21 CFR Part 999.99 - Made Up" "Basic"
      = build_basic_prompt "DOC" "21 CFR Part 999.99 - Made Up" "Basic"
    ∧ pyIn "inspection_readiness" basicSchemaBlock = false :=
  ⟨(c4_fallback_prompt "DOC" "21 CFR Part 999.99 - Made Up" "Basic" rfl).1,
   (c4_fallback_prompt "DOC" "21 CFR Part 999.99 - Made Up" "Basic" rfl).2.1⟩

/-- C5: for a regulation that resolves in the catalog, the built prompt
contains, verbatim as substrings, the requirement of every subsection of
the resolved spec and every entry of every subsection key-element list. -/
theorem c5_schema_coverage (document_text regulation detail_level : String)
    (rd : RegData) (hres : get_regulation_requirements regulation = some rd)
    (sk : String) (sd : SubsectionReq) (hm : (sk, sd) ∈ rd.subsections) :
    pyIn sd.requirement
      (build_enhanced_prompt document_text regulation detail_level) = true
    ∧ ∀ e ∈ sd.key_elements,
        pyIn e (build_enhanced_prompt document_text regulation detail_level) = true := by
  unfold build_enhanced_prompt
  rw [hres]
  unfold detailedPrompt
  constructor
  · have h0 : pyIn sd.requirement (subsection_details rd.subsections) = true :=
      req_in_sub_foldl hm ""
    exact pyIn_append_right _ (pyIn_append_right _ (pyIn_append_right _
      (pyIn_append_right _ (pyIn_append_right _ (pyIn_append_right _
        (pyIn_append_right _ (pyIn_append_left _ h0)))))))
  · intro e he
    have h0 : pyIn e (subsection_details rd.subsections) = true :=
      elem_in_sub_foldl hm he ""
    exact pyIn_append_right _ (pyIn_append_right _ (pyIn_append_right _
      (pyIn_append_right _ (pyIn_append_right _ (pyIn_append_right _
        (pyIn_append_right _ (pyIn_append_left _ h0)))))))

/-- Witness for C5 on the 820.75 catalog entry and its first subsection. -/
theorem c5_schema_coverage_witness :
    pyIn "General - Validation of processes where results cannot be fully verified"
      (build_enhanced_prompt "DOC" "21 CFR Part 820.75 - Process Validation" "Standard") = true
    ∧ pyIn "High degree of assurance established"
      (build_enhanced_prompt "DOC" "21 CFR Part 820.75 - Process Validation" "Standard") = true := by
  have h := c5_schema_coverage "DOC" "21 CFR Part 820.75 - Process Validation" "Standard"
    reg_820_75 rfl "820.75(a)" sub_820_75_a (List.mem_cons_self _ _)
  exact ⟨h.1, h.2 _ (List.mem_cons_of_mem _ (List.mem_cons_self _ _))⟩

/-- C2: whenever the fence-stripped response fails the strict JSON parse,
the normalization step returns (it never raises: it is a total function)
the degraded result, whose assessment has `compliance_score = 0` and
`overall_risk_level = "UNKNOWN"`, which carries the `error` marker, and
whose `raw_analysis` equals the fence-stripped input text. -/
theorem c2_parse_failure_degrades (raw : String)
    (h : parseJson (stripFences raw) = none) :
    validate_document_response raw = Json.obj [
      ("overall_assessment", Json.obj [
        ("compliance_score", Json.num 0),
        ("overall_risk_level", Json.str "UNKNOWN"),
        ("executive_summary",
          Json.str "Unable to parse structured results. See raw analysis below.")]),
      ("raw_analysis", Json.str (stripFences raw)),
      ("error", Json.str "JSON parsing failed - response may not be properly structured")] := by
  show (match parseJson (stripFences raw) with
        | some j => j
        | none => degradedResult (stripFences raw)) = _
  rw [h]
  rfl

/-- Witness for C2 on the malformed input from the spec. -/
theorem c2_parse_failure_degrades_witness :
    parseJson (stripFences "not json") = none
    ∧ validate_document_response "not json" = Json.obj [
      ("overall_assessment", Json.obj [
        ("compliance_score", Json.num 0),
        ("overall_risk_level", Json.str "UNKNOWN"),
        ("executive_summary",
          Json.str "Unable to parse structured results. See raw analysis below.")]),
      ("raw_analysis", Json.str "not json"),
      ("error", Json.str "JSON parsing failed - response may not be properly structured")] :=
  ⟨rfl, c2_parse_failure_degrades "not json" rfl⟩

/-- C8 counterexample: for a fenced unparseable response the code stores
the fence-stripped text in `raw_analysis`, not the untouched raw text — the
stored string differs from the model output as received. -/
theorem c8_counterexample :
    pyGetD (validate_document_response "```json\nnot json\n```") "raw_analysis" Json.null
      = Except.ok (Json.str "not json")
    ∧ ¬ ("not json" = "```json\nnot json\n```") :=
  ⟨rfl, by decide⟩

/-- C8 amended: on parse failure `raw_analysis` carries the fence-stripped
response text (equal to the raw text exactly when no outer fence was
present), together with the `error` marker. -/
theorem c8_raw_analysis_stripped (raw : String)
    (h : parseJson (stripFences raw) = none) :
    pyGetD (validate_document_response raw) "raw_analysis" Json.null
      = Except.ok (Json.str (stripFences raw))
    ∧ pyHasKey (validate_document_response raw) "error" = Except.ok true := by
  have hv : validate_document_response raw = degradedResult (stripFences raw) := by
    show (match parseJson (stripFences raw) with
          | some j => j
          | none => degradedResult (stripFences raw)) = _
    rw [h]
  rw [hv]
  exact ⟨rfl, rfl⟩

/-- Witness for C8 on an unfenced input, where the stored text coincides
with the raw text. -/
theorem c8_raw_analysis_stripped_witness :
    pyGetD (validate_document_response "plain text") "raw_analysis" Json.null
      = Except.ok (Json.str (stripFences "plain text"))
    ∧ pyHasKey (validate_document_response "plain text") "error" = Except.ok true :=
  c8_raw_analysis_stripped "plain text" rfl

/-- C9: when the fence-stripped response parses as JSON, the normalization
step returns the parsed value verbatim — no shape validation happens, so
non-object values (bare numbers, strings, arrays) are returned as-is and
the degraded path is taken only when JSON decoding itself fails. -/
theorem c9_parse_success_verbatim (raw : String) (j : Json)
    (h : parseJson (stripFences raw) = some j) :
    validate_document_response raw = j := by
  show (match parseJson (stripFences raw) with
        | some j => j
        | none => degradedResult (stripFences raw)) = j
  rw [h]

/-- Witness for C9: a bare number is returned verbatim. -/
theorem c9_parse_success_verbatim_witness :
    validate_document_response "42" = Json.num 42 :=
  c9_parse_success_verbatim "42" (Json.num 42) rfl

/-- C10: the priority sort of `format_results_for_display` is not total.
The prompt schema instructs the model to return `priority` as the string
`"1|2|3"` while a missing priority defaults to the integer `999`; on a
result mixing a string priority with a missing one, the comparison raises
TypeError out of `format_results_for_display`. -/
theorem c10_priority_sort_raises :
    format_results_for_display (Json.obj [("priority_actions", Json.arr [
        Json.obj [("priority", Json.str "1"), ("action", Json.str "A")],
        Json.obj [("action", Json.str "B")]])])
      = Except.error PyErr.typeError
    ∧ actionKey (Json.obj [("action", Json.str "B")]) = Except.ok (Json.num 999)
    ∧ pyIn "\"priority\": \"1|2|3\"" detailedSchemaBlock = true :=
  ⟨rfl, rfl, rfl⟩

theorem actionKey_eq_keyIntOf {a : Json}
    (h : ∃ n : Int, actionKey a = Except.ok (Json.num n)) :
    actionKey a = Except.ok (Json.num (keyIntOf a)) := by
  obtain ⟨n, hn⟩ := h
  cases a
  case obj kvs =>
    simp only [actionKey, pyGetD] at hn ⊢
    cases hl : objLookup kvs "priority" with
    | none => simp [keyIntOf, hl]
    | some v =>
      rw [hl] at hn
      simp only [Option.getD_some] at hn
      injection hn with hv
      subst hv
      simp [keyIntOf, hl]
  all_goals simp [actionKey, pyGetD] at hn

theorem hasPriority_false_key {a : Json} (h : hasPriority a = false) :
    keyIntOf a = 999 := by
  cases a
  case obj kvs =>
    simp only [hasPriority] at h
    cases hx : objLookup kvs "priority" with
    | none => simp [keyIntOf, hx]
    | some v => rw [hx] at h; simp at h
  all_goals rfl

theorem insertSorted_spec (x : Json × Json) (l : List (Json × Json))
    (hx : PairOk x) (hl : ∀ p ∈ l, PairOk p)
    (hs : l.Pairwise fun p q => keyIntOf p.1 ≤ keyIntOf q.1) :
    ∃ out, insertSorted x l = Except.ok out
      ∧ (∀ p ∈ out, PairOk p)
      ∧ out.Pairwise (fun p q => keyIntOf p.1 ≤ keyIntOf q.1)
      ∧ out.Perm (x :: l) := by
  induction l with
  | nil =>
    refine ⟨[x], rfl, ?_, by simp, List.Perm.refl _⟩
    intro p hp
    rw [List.mem_singleton.mp hp]
    exact hx
  | cons y t ih =>
    have hy : PairOk y := hl y (List.mem_cons_self _ _)
    have hlt : ∀ p ∈ t, PairOk p := fun p hp => hl p (List.mem_cons_of_mem _ hp)
    have hpc := List.pairwise_cons.mp hs
    have hcmp : pyLt y.2 x.2 = Except.ok (decide (keyIntOf y.1 < keyIntOf x.1)) := by
      rw [hy, hx]; rfl
    by_cases hord : keyIntOf y.1 < keyIntOf x.1
    · have hd : decide (keyIntOf y.1 < keyIntOf x.1) = true := decide_eq_true hord
      obtain ⟨out', h1, h2, h3, h4⟩ := ih hlt hpc.2
      refine ⟨y :: out', ?_, ?_, ?_, ?_⟩
      · simp only [insertSorted, hcmp, hd, if_true, h1]
      · intro p hp
        rcases List.mem_cons.mp hp with rfl | hp'
        · exact hy
        · exact h2 p hp'
      · rw [List.pairwise_cons]
        refine ⟨fun q hq => ?_, h3⟩
        have hq' : q ∈ x :: t := (List.Perm.mem_iff h4).mp hq
        rcases List.mem_cons.mp hq' with rfl | hq''
        · exact le_of_lt hord
        · exact hpc.1 q hq''
      · exact (h4.cons y).trans (List.Perm.swap x y t)
    · have hd : decide (keyIntOf y.1 < keyIntOf x.1) = false := decide_eq_false hord
      refine ⟨x :: y :: t, ?_, ?_, ?_, List.Perm.refl _⟩
      · simp only [insertSorted, hcmp, hd, Bool.false_eq_true, if_false]
      · intro p hp
        rcases List.mem_cons.mp hp with rfl | hp'
        · exact hx
        · exact hl p hp'
      · rw [List.pairwise_cons]
        refine ⟨fun q hq => ?_, hs⟩
        have hxy : keyIntOf x.1 ≤ keyIntOf y.1 := le_of_not_lt hord
        rcases List.mem_cons.mp hq with rfl | hq'
        · exact hxy
        · exact le_trans hxy (hpc.1 q hq')

theorem sortKeyed_spec (l : List (Json × Json)) (hl : ∀ p ∈ l, PairOk p) :
    ∃ out, sortKeyed l = Except.ok out
      ∧ (∀ p ∈ out, PairOk p)
      ∧ out.Pairwise (fun p q => keyIntOf p.1 ≤ keyIntOf q.1)
      ∧ out.Perm l := by
  induction l with
  | nil => exact ⟨[], rfl, by simp, by simp, List.Perm.refl _⟩
  | cons x xs ih =>
    obtain ⟨s, h1, h2, h3, h4⟩ := ih (fun p hp => hl p (List.mem_cons_of_mem _ hp))
    obtain ⟨out, g1, g2, g3, g4⟩ :=
      insertSorted_spec x s (hl x (List.mem_cons_self _ _)) h2 h3
    refine ⟨out, ?_, g2, g3, g4.trans (h4.cons x)⟩
    simp only [sortKeyed, h1, g1]

theorem keyedActions_spec (actions : List Json)
    (h : ∀ a ∈ actions, ∃ n : Int, actionKey a = Except.ok (Json.num n)) :
    keyedActions actions
      = Except.ok (actions.map fun a => (a, Json.num (keyIntOf a))) := by
  induction actions with
  | nil => rfl
  | cons a as ih =>
    have ha := actionKey_eq_keyIntOf (h a (List.mem_cons_self _ _))
    have has := ih fun b hb => h b (List.mem_cons_of_mem _ hb)
    simp only [keyedActions, ha, has, List.map_cons]

/-- C6 counterexample: the entry without a priority field (key 999) is
rendered before the entry whose priority is 1000, so a missing-priority
entry does not sort after every entry that has one. -/
theorem c6_counterexample :
    (format_results_for_display resultsPriority1000).map
        (fun s => beforeIn s "Priority N/A" "Priority 1000") = Except.ok true
    ∧ pySortActions [
        Json.obj [("priority", Json.num 1000), ("action", Json.str "ACT-ONE")],
        Json.obj [("action", Json.str "ACT-TWO")]]
      = Except.ok [
        Json.obj [("action", Json.str "ACT-TWO")],
        Json.obj [("priority", Json.num 1000), ("action", Json.str "ACT-ONE")]] :=
  ⟨rfl, rfl⟩

/-- C6 amended: the report lists priority actions in stable ascending
order of the sort key (`priority`, defaulting to 999 when missing) — for
stored priorities 3, 1, 2 the rendered order is 1, 2, 3 — and an entry
with a missing priority field sorts after every entry whose priority is an
integer below 999 (not after entries with priority at least 999). -/
theorem c6_priority_order (actions : List Json)
    (h : ∀ a ∈ actions, ∃ n : Int, actionKey a = Except.ok (Json.num n)) :
    ((format_results_for_display resultsPriorities312).map fun s =>
        beforeIn s "ACT-B" "ACT-C" && beforeIn s "ACT-C" "ACT-A") = Except.ok true
    ∧ ∃ out, pySortActions actions = Except.ok out
        ∧ out.Pairwise (fun a b => keyIntOf a ≤ keyIntOf b)
        ∧ out.Pairwise (fun a b =>
            hasPriority a = false → hasPriority b = true → 999 ≤ keyIntOf b) := by
  constructor
  · rfl
  · obtain ⟨s, h1, h2, h3, _⟩ :=
      sortKeyed_spec (actions.map fun a => (a, Json.num (keyIntOf a))) (by
        intro p hp
        obtain ⟨a, _, rfl⟩ := List.mem_map.mp hp
        rfl)
    have hsorted : (s.map Prod.fst).Pairwise fun a b => keyIntOf a ≤ keyIntOf b :=
      h3.map Prod.fst fun p q hpq => hpq
    refine ⟨s.map Prod.fst, ?_, hsorted, ?_⟩
    · simp only [pySortActions, keyedActions_spec actions h, h1]
    · refine hsorted.imp ?_
      intro a b hle ha _
      rw [hasPriority_false_key ha] at hle
      exact hle

/-- Witness for C6 on the priorities 3, 1, 2 input. -/
theorem c6_priority_order_witness :
    ((format_results_for_display resultsPriorities312).map fun s =>
        beforeIn s "ACT-B" "ACT-C" && beforeIn s "ACT-C" "ACT-A") = Except.ok true
    ∧ pySortActions [
        Json.obj [("priority", Json.num 3), ("action", Json.str "ACT-A")],
        Json.obj [("priority", Json.num 1), ("action", Json.str "ACT-B")],
        Json.obj [("priority", Json.num 2), ("action", Json.str "ACT-C")]]
      = Except.ok [
        Json.obj [("priority", Json.num 1), ("action", Json.str "ACT-B")],
        Json.obj [("priority", Json.num 2), ("action", Json.str "ACT-C")],
        Json.obj [("priority", Json.num 3), ("action", Json.str "ACT-A")]] := by
  have h := c6_priority_order [
      Json.obj [("priority", Json.num 3), ("action", Json.str "ACT-A")],
      Json.obj [("priority", Json.num 1), ("action", Json.str "ACT-B")],
      Json.obj [("priority", Json.num 2), ("action", Json.str "ACT-C")]] (by
    intro a ha
    fin_cases ha
    · exact ⟨3, rfl⟩
    · exact ⟨1, rfl⟩
    · exact ⟨2, rfl⟩)
  exact ⟨h.1, rfl⟩

theorem hasSub_joinNl {n : List Char} {ls : List (List Char)} (hm : n ∈ ls) :
    hasSub n (joinNl ls) = true := by
  induction ls with
  | nil => cases hm
  | cons l rest ih =>
    cases rest with
    | nil =>
      rw [List.mem_singleton.mp hm]
      exact (hasSub_iff ..).mpr ⟨[], [], by simp [joinNl]⟩
    | cons r rs =>
      rw [joinNl_cons _ _ (by simp)]
      rcases List.mem_cons.mp hm with rfl | hm'
      · exact (hasSub_iff ..).mpr ⟨[], '\n' :: joinNl (r :: rs), by simp⟩
      · have hih := ih hm'
        rw [hasSub_iff] at hih ⊢
        obtain ⟨a, b, hab⟩ := hih
        exact ⟨l ++ '\n' :: a, b, by simp [hab]⟩

theorem pyIn_joinLines {n : String} {ls : List String} (hm : n ∈ ls) :
    pyIn n (joinLines ls) = true :=
  hasSub_joinNl (List.mem_map_of_mem (fun s => s.data) hm)

theorem assessmentLines_shape {results : Json} {out1 : List String}
    (h : assessmentLines results = Except.ok out1) :
    ∃ s4 s5 s6 s7,
      out1 = [sepLine, "OVERALL COMPLIANCE ASSESSMENT", sepLine, s4, s5, s6, s7] := by
  unfold assessmentLines at h
  split at h
  · exact Except.noConfusion h
  · split at h
    · exact Except.noConfusion h
    · split at h
      · exact Except.noConfusion h
      · split at h
        · exact Except.noConfusion h
        · split at h
          · exact Except.noConfusion h
          · injection h with h'
            exact ⟨_, _, _, _, h'.symm⟩

theorem format_ok_structure (results : Json) (out : String)
    (hnd : pyHasKey results "error" = Except.ok false)
    (hok : format_results_for_display results = Except.ok out) :
    ∃ out1 rest, assessmentLines results = Except.ok out1
      ∧ out = joinLines (out1 ++ rest) := by
  unfold format_results_for_display at hok
  rw [hnd] at hok
  cases h1 : assessmentLines results with
  | error e => rw [h1] at hok; simp at hok
  | ok out1 =>
    rw [h1] at hok
    cases h2 : irSection results with
    | error e => rw [h2] at hok; simp at hok
    | ok out2 =>
      rw [h2] at hok
      cases h3 : findingsSection results with
      | error e => rw [h3] at hok; simp at hok
      | ok out3 =>
        rw [h3] at hok
        cases h4 : strengthsSection results with
        | error e => rw [h4] at hok; simp at hok
        | ok out4 =>
          rw [h4] at hok
          cases h5 : prioritySection results with
          | error e => rw [h5] at hok; simp at hok
          | ok out5 =>
            rw [h5] at hok
            simp only at hok
            refine ⟨out1, out2 ++ out3 ++ out4 ++ out5, ?_, ?_⟩
            · exact rfl
            · injection hok with hout
              rw [← hout]
              simp [List.append_assoc]

theorem objLookup_filter {k : String} {p : String × Json → Bool}
    (kvs : List (String × Json)) (hp : ∀ kv : String × Json, kv.1 = k → p kv = true) :
    objLookup (kvs.filter p) k = objLookup kvs k := by
  induction kvs with
  | nil => rfl
  | cons kv t ih =>
    rw [List.filter_cons]
    by_cases hk : kv.1 = k
    · rw [hp kv hk, if_pos rfl]
      simp [objLookup, List.findSome?_cons, hk, ih]
    · cases hpv : p kv
      · rw [if_neg (by simp [hpv])]
        rw [ih]
        simp [objLookup, List.findSome?_cons, hk]
      · rw [if_pos (by simp [hpv])]
        simp [objLookup, List.findSome?_cons, hk]
        exact ih

theorem fmtFinding_char (i : Nat) (kvs : List (String × Json)) :
    fmtFinding i (Json.obj kvs) = Except.ok (
      ["\n[" ++ toString i ++ "] "
          ++ pyStr ((objLookup kvs "cfr_citation").getD (Json.str "N/A")) ++ " - "
          ++ pyStr ((objLookup kvs "severity").getD (Json.str "N/A")),
        "Requirement: "
          ++ pyStr ((objLookup kvs "requirement_description").getD (Json.str "N/A")),
        "Finding: " ++ pyStr ((objLookup kvs "finding").getD (Json.str "N/A")),
        "Risk: " ++ pyStr ((objLookup kvs "risk_to_compliance").getD (Json.str "N/A")),
        "Recommendation: "
          ++ pyStr ((objLookup kvs "recommendation").getD (Json.str "N/A"))]
      ++ if pyTruthy ((objLookup kvs "regulatory_precedent").getD Json.null) then
          ["Regulatory Precedent: "
            ++ pyStr ((objLookup kvs "regulatory_precedent").getD Json.null)]
        else []) := by
  unfold fmtFinding
  simp only [pyGetD, pyGetOpt, Bind.bind, Except.bind, Pure.pure, Except.pure]
  by_cases hp : pyTruthy ((objLookup kvs "regulatory_precedent").getD Json.null) = true
  · simp [hp]
  · simp [hp]

theorem assessmentLines_char (kvs akvs : List (String × Json))
    (h : objLookup kvs "overall_assessment" = some (Json.obj akvs)) :
    assessmentLines (Json.obj kvs) = Except.ok [sepLine,
      "OVERALL COMPLIANCE ASSESSMENT", sepLine,
      "Compliance Score: "
        ++ pyStr ((objLookup akvs "compliance_score").getD (Json.str "N/A")) ++ "%",
      "Overall Risk Level: "
        ++ pyStr ((objLookup akvs "overall_risk_level").getD (Json.str "N/A")),
      "FDA Inspection Ready: "
        ++ pyStr ((objLookup akvs "ready_for_fda_inspection").getD (Json.str "N/A")),
      "\n" ++ pyStr ((objLookup akvs "executive_summary").getD (Json.str ""))] := by
  unfold assessmentLines
  simp [pyGetD, h]

theorem irSection_absent (kvs : List (String × Json))
    (h : objLookup kvs "inspection_readiness" = none) :
    irSection (Json.obj kvs) = Except.ok [] := by
  unfold irSection
  simp [pyHasKey, h]

theorem irSection_present (kvs : List (String × Json)) (v : Json)
    (h : objLookup kvs "inspection_readiness" = some v) :
    irSection (Json.obj kvs) = fmtIR v := by
  unfold irSection
  simp [pyHasKey, pyIndex, h]

theorem findingsSection_falsy (r v : Json)
    (h : pyGetD r "findings" (Json.arr []) = Except.ok v) (hf : pyTruthy v = false) :
    findingsSection r = Except.ok [] := by
  unfold findingsSection
  rw [h]
  simp [hf]

theorem strengthsSection_falsy (r v : Json)
    (h : pyGetD r "strengths" (Json.arr []) = Except.ok v) (hf : pyTruthy v = false) :
    strengthsSection r = Except.ok [] := by
  unfold strengthsSection
  rw [h]
  simp [hf]

theorem prioritySection_falsy (r v : Json)
    (h : pyGetD r "priority_actions" (Json.arr []) = Except.ok v)
    (hf : pyTruthy v = false) :
    prioritySection r = Except.ok [] := by
  unfold prioritySection
  rw [h]
  simp [hf]

/-- C7 counterexample: a non-degraded result whose report contains none of
the Inspection Readiness, Detailed Findings, Strengths or Priority Actions
sections — absent sections are silently omitted, so the report is not
structurally complete. -/
theorem c7_counterexample :
    pyHasKey resultsAssessmentOnly "error" = Except.ok false
    ∧ (format_results_for_display resultsAssessmentOnly).map (fun s =>
        pyIn "INSPECTION READINESS SUMMARY" s || pyIn "DETAILED FINDINGS" s
          || pyIn "COMPLIANCE STRENGTHS" s || pyIn "PRIORITY ACTIONS" s)
      = Except.ok false :=
  ⟨rfl, rfl⟩

/-- C7 amended: every successfully rendered non-degraded report contains
the Overall Assessment section, whose score, risk level and readiness
fields fall back to an explicit N/A and whose summary falls back to the
empty string; the Inspection Readiness section is guarded by key presence
alone, so a present but falsy value such as an empty object still renders
its header with zero-count defaults; the Detailed Findings, Compliance
Strengths and Priority Actions sections contribute nothing whenever their
key is absent or its value is falsy; within a rendered finding the
citation, severity, requirement, finding, risk and recommendation fields
fall back to an explicit N/A, the evidence and severity_justification
fields are never rendered (deleting them never changes the rendered
lines), and the regulatory precedent line is rendered exactly when that
field is truthy. -/
theorem c7_report_structure (results : Json) (out : String)
    (hnd : pyHasKey results "error" = Except.ok false)
    (hok : format_results_for_display results = Except.ok out) :
    pyIn "OVERALL COMPLIANCE ASSESSMENT" out = true
    ∧ (∀ kvs akvs, objLookup kvs "overall_assessment" = some (Json.obj akvs) →
        assessmentLines (Json.obj kvs) = Except.ok [sepLine,
          "OVERALL COMPLIANCE ASSESSMENT", sepLine,
          "Compliance Score: "
            ++ pyStr ((objLookup akvs "compliance_score").getD (Json.str "N/A")) ++ "%",
          "Overall Risk Level: "
            ++ pyStr ((objLookup akvs "overall_risk_level").getD (Json.str "N/A")),
          "FDA Inspection Ready: "
            ++ pyStr ((objLookup akvs "ready_for_fda_inspection").getD (Json.str "N/A")),
          "\n" ++ pyStr ((objLookup akvs "executive_summary").getD (Json.str ""))])
    ∧ (∀ kvs, objLookup kvs "inspection_readiness" = none →
        irSection (Json.obj kvs) = Except.ok [])
    ∧ (∀ kvs v, objLookup kvs "inspection_readiness" = some v →
        irSection (Json.obj kvs) = fmtIR v)
    ∧ fmtIR (Json.obj []) = Except.ok ["\n" ++ sepLine,
        "INSPECTION READINESS SUMMARY", sepLine,
        "Critical Gaps: 0", "Major Gaps: 0", "Minor Gaps: 0",
        "Estimated Time to Compliance: N/A"]
    ∧ (∀ r v, pyGetD r "findings" (Json.arr []) = Except.ok v → pyTruthy v = false →
        findingsSection r = Except.ok [])
    ∧ (∀ r v, pyGetD r "strengths" (Json.arr []) = Except.ok v → pyTruthy v = false →
        strengthsSection r = Except.ok [])
    ∧ (∀ r v, pyGetD r "priority_actions" (Json.arr []) = Except.ok v →
        pyTruthy v = false → prioritySection r = Except.ok [])
    ∧ (∀ i kvs, fmtFinding i (Json.obj kvs) = Except.ok (
        ["\n[" ++ toString i ++ "] "
            ++ pyStr ((objLookup kvs "cfr_citation").getD (Json.str "N/A")) ++ " - "
            ++ pyStr ((objLookup kvs "severity").getD (Json.str "N/A")),
          "Requirement: "
            ++ pyStr ((objLookup kvs "requirement_description").getD (Json.str "N/A")),
          "Finding: " ++ pyStr ((objLookup kvs "finding").getD (Json.str "N/A")),
          "Risk: " ++ pyStr ((objLookup kvs "risk_to_compliance").getD (Json.str "N/A")),
          "Recommendation: "
            ++ pyStr ((objLookup kvs "recommendation").getD (Json.str "N/A"))]
        ++ if pyTruthy ((objLookup kvs "regulatory_precedent").getD Json.null) then
            ["Regulatory Precedent: "
              ++ pyStr ((objLookup kvs "regulatory_precedent").getD Json.null)]
          else []))
    ∧ (∀ i kvs, fmtFinding i (Json.obj (kvs.filter fun kv =>
          !(kv.1 == "evidence" || kv.1 == "severity_justification")))
        = fmtFinding i (Json.obj kvs)) := by
  refine ⟨?_, assessmentLines_char, irSection_absent, irSection_present, rfl,
    findingsSection_falsy, strengthsSection_falsy, prioritySection_falsy,
    fmtFinding_char, ?_⟩
  · obtain ⟨out1, rest, h1, hout⟩ := format_ok_structure results out hnd hok
    obtain ⟨s4, s5, s6, s7, hshape⟩ := assessmentLines_shape h1
    rw [hout]
    apply pyIn_joinLines
    rw [hshape]
    simp
  · intro i kvs
    have e : ∀ k : String, (k == "evidence") = false →
        (k == "severity_justification") = false →
        objLookup (kvs.filter fun kv =>
          !(kv.1 == "evidence" || kv.1 == "severity_justification")) k
          = objLookup kvs k := by
      intro k h1 h2
      apply objLookup_filter
      intro kv hk
      rw [hk, h1, h2]
      rfl
    rw [fmtFinding_char, fmtFinding_char]
    rw [e "cfr_citation" rfl rfl, e "severity" rfl rfl,
      e "requirement_description" rfl rfl, e "finding" rfl rfl,
      e "risk_to_compliance" rfl rfl, e "recommendation" rfl rfl,
      e "regulatory_precedent" rfl rfl]

/-- Witness for C7 on the finding-demo result. -/
theorem c7_report_structure_witness :
    pyHasKey resultsFindingDemo "error" = Except.ok false
    ∧ pyIn "OVERALL COMPLIANCE ASSESSMENT"
        (joinLines [sepLine, "OVERALL COMPLIANCE ASSESSMENT", sepLine,
          "Compliance Score: N/A%", "Overall Risk Level: N/A",
          "FDA Inspection Ready: N/A", "\n", "\n" ++ sepLine,
          "DETAILED FINDINGS", sepLine, "\n[1] N/A - N/A",
          "Requirement: N/A", "Finding: N/A", "Risk: N/A",
          "Recommendation: N/A"]) = true := by
  refine ⟨rfl, ?_⟩
  have h := c7_report_structure resultsFindingDemo
    (joinLines [sepLine, "OVERALL COMPLIANCE ASSESSMENT", sepLine,
      "Compliance Score: N/A%", "Overall Risk Level: N/A",
      "FDA Inspection Ready: N/A", "\n", "\n" ++ sepLine,
      "DETAILED FINDINGS", sepLine, "\n[1] N/A - N/A",
      "Requirement: N/A", "Finding: N/A", "Risk: N/A",
      "Recommendation: N/A"]) rfl rfl
  exact h.1

theorem allPyWs_nil : allPyWs [] := fun c hc => absurd hc (List.not_mem_nil c)

theorem allPyWs_append {a b : List Char} (ha : allPyWs a) (hb : allPyWs b) :
    allPyWs (a ++ b) := by
  intro c hc
  rcases List.mem_append.mp hc with h | h
  · exact ha c h
  · exact hb c h

theorem allPyWs_sub {a b : List Char} (h : allPyWs (a ++ b)) :
    allPyWs a ∧ allPyWs b :=
  ⟨fun c hc => h c (List.mem_append.mpr (Or.inl hc)),
   fun c hc => h c (List.mem_append.mpr (Or.inr hc))⟩

theorem wg_extend {u v : List Char} (hu : WG u) (hv : WG v) : WG (u ++ v) := by
  rcases hu with ⟨w, g, r, rfl, hw, hg⟩ | hu
  · exact Or.inl ⟨w, g, r ++ v, by simp, hw, hg⟩
  · rcases hv with ⟨w, g, r, rfl, hw, hg⟩ | hv
    · exact Or.inl ⟨u ++ w, g, r, by simp, allPyWs_append hu hw, hg⟩
    · exact Or.inr (allPyWs_append hu hv)

theorem q_append {a b : List Char} (ha : Q a) (hb : Q b) : Q (a ++ b) := by
  refine ⟨?_, wg_extend ha.2 hb.2⟩
  intro x y hxy
  rcases List.append_eq_append_iff.mp hxy.symm with ⟨a', ha1, ha2⟩ | ⟨c', hc1, hc2⟩
  · -- a = x ++ a' and '\n' :: y = a' ++ b
    cases a' with
    | nil =>
      simp only [List.nil_append] at ha2
      exact hb.1 [] y (by simpa using ha2.symm)
    | cons ch a'' =>
      simp only [List.cons_append] at ha2
      injection ha2 with h1 h2
      subst h1
      have hwg : WG a'' := ha.1 x a'' ha1
      rw [h2]
      exact wg_extend hwg hb.2
  · -- the newline lies inside b
    exact hb.1 c' y hc2

theorem q_of_allGood {l : List Char} (h : ∀ c ∈ l, Good c) : Q l := by
  constructor
  · intro a b hab
    have : Good '\n' := h '\n' (by rw [hab]; simp)
    simp [Good, isPyWs] at this
  · cases l with
    | nil => exact Or.inr allPyWs_nil
    | cons g t => exact Or.inl ⟨[], g, t, rfl, allPyWs_nil, h g (List.mem_cons_self _ _)⟩

theorem q_of_allWs {l : List Char} (h : allPyWs l) : Q l := by
  refine ⟨?_, Or.inr h⟩
  intro a b hab
  refine Or.inr fun c hc => h c ?_
  rw [hab]
  exact List.mem_append.mpr (Or.inr (List.mem_cons_of_mem _ hc))

theorem q_of_noNl {l : List Char} (hnl : '\n' ∉ l)
    (hd : l = [] ∨ ∃ g t, l = g :: t ∧ Good g) : Q l := by
  constructor
  · intro a b hab
    exact absurd (by rw [hab]; simp : '\n' ∈ l) hnl
  · rcases hd with rfl | ⟨g, t, rfl, hg⟩
    · exact Or.inr allPyWs_nil
    · exact Or.inl ⟨[], g, t, rfl, allPyWs_nil, hg⟩

theorem jsonWs_pyWs {c : Char} (h : isJsonWs c = true) : isPyWs c = true := by
  simp only [isJsonWs, Bool.or_eq_true, decide_eq_true_eq] at h
  rcases h with ((h | h) | h) | h <;> subst h <;> rfl

theorem skipWs_decomp (l : List Char) :
    ∃ w, l = w ++ skipWsL l ∧ allPyWs w := by
  refine ⟨l.takeWhile isJsonWs, (List.takeWhile_append_dropWhile _ _).symm, ?_⟩
  intro c hc
  exact jsonWs_pyWs (List.mem_takeWhile_imp hc)

theorem good_of_digit {c : Char} (h : isDigitChar c = true) : Good c := by
  rw [isDigitChar, Bool.and_eq_true, decide_eq_true_eq, decide_eq_true_eq] at h
  constructor
  · rw [Bool.eq_false_iff]
    intro hw
    simp only [isPyWs, Bool.or_eq_true, decide_eq_true_eq] at hw
    rcases hw with ((((h1 | h1) | h1) | h1) | h1) | h1 <;> subst h1 <;>
      exact absurd h (by decide)
  · intro hc
    subst hc
    exact absurd h (by decide)

theorem ge32_not_nl {c : Char} (h : 32 ≤ c.toNat) : c ≠ '\n' := by
  intro hc
  subst hc
  exact absurd h (by decide)

theorem hexVal_ge32 {c : Char} {n : Nat} (h : hexVal c = some n) : 32 ≤ c.toNat := by
  unfold hexVal at h
  split_ifs at h with h1 h2 h3 <;> first | omega | exact Option.noConfusion h

theorem expectLit_consumed {kw l r : List Char} (h : expectLit kw l = some r) :
    l = kw ++ r := by
  unfold expectLit at h
  split_ifs at h with hk
  · obtain ⟨t, ht⟩ := (leadEq_iff kw l).mp hk
    injection h with h'
    subst ht
    rw [← h', List.drop_left]

theorem hex4_ge32 {a b c d : Char} {n : Nat} (h : hex4 a b c d = some n) :
    32 ≤ a.toNat ∧ 32 ≤ b.toNat ∧ 32 ≤ c.toNat ∧ 32 ≤ d.toNat := by
  unfold hex4 at h
  cases ha : hexVal a with
  | none => rw [ha] at h; dsimp only at h; exact Option.noConfusion h
  | some x =>
    rw [ha] at h
    cases hb : hexVal b with
    | none => rw [hb] at h; dsimp only at h; exact Option.noConfusion h
    | some y =>
      rw [hb] at h
      cases hc : hexVal c with
      | none => rw [hc] at h; dsimp only at h; exact Option.noConfusion h
      | some z =>
        rw [hc] at h
        cases hd : hexVal d with
        | none => rw [hd] at h; dsimp only at h; exact Option.noConfusion h
        | some w =>
          exact ⟨hexVal_ge32 ha, hexVal_ge32 hb, hexVal_ge32 hc, hexVal_ge32 hd⟩

theorem psb_consumed : ∀ (fuel : Nat) (l cont rest : List Char),
    parseStringBody fuel l = some (cont, rest) →
    ∃ pre, l = pre ++ rest ∧ ∀ c ∈ pre, 32 ≤ c.toNat := by
  intro fuel
  induction fuel with
  | zero => intro l cont rest h; exact Option.noConfusion h
  | succ f ih =>
    intro l cont rest h
    cases l with
    | nil => exact Option.noConfusion h
    | cons c t =>
      rw [parseStringBody.eq_def] at h
      dsimp only at h
      by_cases h1 : c = '"'
      · rw [if_pos h1] at h
        injection h with h'
        injection h' with hc hr
        subst h1
        subst hr
        exact ⟨['"'], rfl, by intro x hx; simp at hx; subst hx; decide⟩
      · rw [if_neg h1] at h
        by_cases h2 : c = '\\'
        · rw [if_pos h2] at h
          subst h2
          cases t with
          | nil => exact Option.noConfusion h
          | cons e rest2 =>
            dsimp only at h
            by_cases he : e = '"'
            · rw [if_pos he] at h
              obtain ⟨p, hp, hpe⟩ := Option.map_eq_some'.mp h
              obtain ⟨pre', hpre, hch⟩ := ih rest2 p.1 p.2 (by rw [hp])
              injection hpe with hc hr
              subst he
              refine ⟨'\\' :: '"' :: pre', by simp [hpre, ← hr], ?_⟩
              intro x hx
              rcases List.mem_cons.mp hx with rfl | hx'
              · decide
              · rcases List.mem_cons.mp hx' with rfl | hx''
                · decide
                · exact hch x hx''
            · rw [if_neg he] at h
              by_cases he2 : e = '\\'
              · rw [if_pos he2] at h
                obtain ⟨p, hp, hpe⟩ := Option.map_eq_some'.mp h
                obtain ⟨pre', hpre, hch⟩ := ih rest2 p.1 p.2 (by rw [hp])
                injection hpe with hc hr
                subst he2
                refine ⟨'\\' :: '\\' :: pre', by simp [hpre, ← hr], ?_⟩
                intro x hx
                rcases List.mem_cons.mp hx with rfl | hx'
                · decide
                · rcases List.mem_cons.mp hx' with rfl | hx''
                  · decide
                  · exact hch x hx''
              · rw [if_neg he2] at h
                by_cases he3 : e = '/'
                · rw [if_pos he3] at h
                  obtain ⟨p, hp, hpe⟩ := Option.map_eq_some'.mp h
                  obtain ⟨pre', hpre, hch⟩ := ih rest2 p.1 p.2 (by rw [hp])
                  injection hpe with hc hr
                  subst he3
                  refine ⟨'\\' :: '/' :: pre', by simp [hpre, ← hr], ?_⟩
                  intro x hx
                  rcases List.mem_cons.mp hx with rfl | hx'
                  · decide
                  · rcases List.mem_cons.mp hx' with rfl | hx''
                    · decide
                    · exact hch x hx''
                · rw [if_neg he3] at h
                  by_cases he4 : e = 'b'
                  · rw [if_pos he4] at h
                    obtain ⟨p, hp, hpe⟩ := Option.map_eq_some'.mp h
                    obtain ⟨pre', hpre, hch⟩ := ih rest2 p.1 p.2 (by rw [hp])
                    injection hpe with hc hr
                    subst he4
                    refine ⟨'\\' :: 'b' :: pre', by simp [hpre, ← hr], ?_⟩
                    intro x hx
                    rcases List.mem_cons.mp hx with rfl | hx'
                    · decide
                    · rcases List.mem_cons.mp hx' with rfl | hx''
                      · decide
                      · exact hch x hx''
                  · rw [if_neg he4] at h
                    by_cases he5 : e = 'f'
                    · rw [if_pos he5] at h
                      obtain ⟨p, hp, hpe⟩ := Option.map_eq_some'.mp h
                      obtain ⟨pre', hpre, hch⟩ := ih rest2 p.1 p.2 (by rw [hp])
                      injection hpe with hc hr
                      subst he5
                      refine ⟨'\\' :: 'f' :: pre', by simp [hpre, ← hr], ?_⟩
                      intro x hx
                      rcases List.mem_cons.mp hx with rfl | hx'
                      · decide
                      · rcases List.mem_cons.mp hx' with rfl | hx''
                        · decide
                        · exact hch x hx''
                    · rw [if_neg he5] at h
                      by_cases he6 : e = 'n'
                      · rw [if_pos he6] at h
                        obtain ⟨p, hp, hpe⟩ := Option.map_eq_some'.mp h
                        obtain ⟨pre', hpre, hch⟩ := ih rest2 p.1 p.2 (by rw [hp])
                        injection hpe with hc hr
                        subst he6
                        refine ⟨'\\' :: 'n' :: pre', by simp [hpre, ← hr], ?_⟩
                        intro x hx
                        rcases List.mem_cons.mp hx with rfl | hx'
                        · decide
                        · rcases List.mem_cons.mp hx' with rfl | hx''
                          · decide
                          · exact hch x hx''
                      · rw [if_neg he6] at h
                        by_cases he7 : e = 'r'
                        · rw [if_pos he7] at h
                          obtain ⟨p, hp, hpe⟩ := Option.map_eq_some'.mp h
                          obtain ⟨pre', hpre, hch⟩ := ih rest2 p.1 p.2 (by rw [hp])
                          injection hpe with hc hr
                          subst he7
                          refine ⟨'\\' :: 'r' :: pre', by simp [hpre, ← hr], ?_⟩
                          intro x hx
                          rcases List.mem_cons.mp hx with rfl | hx'
                          · decide
                          · rcases List.mem_cons.mp hx' with rfl | hx''
                            · decide
                            · exact hch x hx''
                        · rw [if_neg he7] at h
                          by_cases he8 : e = 't'
                          · rw [if_pos he8] at h
                            obtain ⟨p, hp, hpe⟩ := Option.map_eq_some'.mp h
                            obtain ⟨pre', hpre, hch⟩ := ih rest2 p.1 p.2 (by rw [hp])
                            injection hpe with hc hr
                            subst he8
                            refine ⟨'\\' :: 't' :: pre', by simp [hpre, ← hr], ?_⟩
                            intro x hx
                            rcases List.mem_cons.mp hx with rfl | hx'
                            · decide
                            · rcases List.mem_cons.mp hx' with rfl | hx''
                              · decide
                              · exact hch x hx''
                          · rw [if_neg he8] at h
                            by_cases he9 : e = 'u'
                            · rw [if_pos he9] at h
                              subst he9
                              cases rest2 with
                              | nil => exact Option.noConfusion h
                              | cons c1 t1 =>
                                cases t1 with
                                | nil => exact Option.noConfusion h
                                | cons c2 t2 =>
                                  cases t2 with
                                  | nil => exact Option.noConfusion h
                                  | cons c3 t3 =>
                                    cases t3 with
                                    | nil => exact Option.noConfusion h
                                    | cons c4 rest3 =>
                                      dsimp only at h
                                      cases hx4 : hex4 c1 c2 c3 c4 with
                                      | none =>
                                        rw [hx4] at h
                                        exact Option.noConfusion h
                                      | some n =>
                                        rw [hx4] at h
                                        obtain ⟨hg1, hg2, hg3, hg4⟩ := hex4_ge32 hx4
                                        obtain ⟨p, hp, hpe⟩ := Option.map_eq_some'.mp h
                                        obtain ⟨pre', hpre, hch⟩ :=
                                          ih rest3 p.1 p.2 (by rw [hp])
                                        injection hpe with hc hr
                                        refine ⟨'\\' :: 'u' :: c1 :: c2 :: c3 :: c4 :: pre',
                                          by simp [hpre, ← hr], ?_⟩
                                        intro x hx
                                        rcases List.mem_cons.mp hx with rfl | hx'
                                        · decide
                                        rcases List.mem_cons.mp hx' with rfl | hx''
                                        · decide
                                        rcases List.mem_cons.mp hx'' with rfl | hy1
                                        · exact hg1
                                        rcases List.mem_cons.mp hy1 with rfl | hy2
                                        · exact hg2
                                        rcases List.mem_cons.mp hy2 with rfl | hy3
                                        · exact hg3
                                        rcases List.mem_cons.mp hy3 with rfl | hy4
                                        · exact hg4
                                        exact hch x hy4
                            · rw [if_neg he9] at h
                              exact Option.noConfusion h
        · rw [if_neg h2] at h
          by_cases h3 : 32 ≤ c.toNat
          · rw [if_pos h3] at h
            obtain ⟨p, hp, hpe⟩ := Option.map_eq_some'.mp h
            obtain ⟨pre', hpre, hch⟩ := ih t p.1 p.2 (by rw [hp])
            injection hpe with hc hr
            refine ⟨c :: pre', by simp [hpre, ← hr], ?_⟩
            intro x hx
            rcases List.mem_cons.mp hx with rfl | hx'
            · exact h3
            · exact hch x hx'
          · rw [if_neg h3] at h
            exact Option.noConfusion h

theorem parseIntPart_consumed {l ds r : List Char} (h : parseIntPart l = some (ds, r)) :
    l = ds ++ r ∧ ds ≠ [] ∧ ∀ c ∈ ds, isDigitChar c = true := by
  cases l with
  | nil => exact Option.noConfusion h
  | cons c t =>
    rw [parseIntPart.eq_def] at h
    dsimp only at h
    by_cases h0 : c = '0'
    · rw [if_pos h0] at h
      injection h with h'
      injection h' with hds hr
      subst h0
      refine ⟨by rw [← hds, ← hr]; rfl, by rw [← hds]; simp, ?_⟩
      intro x hx
      rw [← hds] at hx
      rw [List.mem_singleton.mp hx]
      decide
    · rw [if_neg h0] at h
      by_cases hd : isDigitChar c = true
      · rw [if_pos hd] at h
        injection h with h'
        injection h' with hds hr
        refine ⟨?_, by rw [← hds]; simp, ?_⟩
        · rw [← hds, ← hr]
          simp [List.takeWhile_append_dropWhile]
        · intro x hx
          rw [← hds] at hx
          rcases List.mem_cons.mp hx with rfl | hx'
          · exact hd
          · exact List.mem_takeWhile_imp hx'
      · rw [if_neg hd] at h
        exact Option.noConfusion h

theorem parseFracPart_consumed (l : List Char) :
    l = (parseFracPart l).1 ++ (parseFracPart l).2
    ∧ ∀ c ∈ (parseFracPart l).1, Good c := by
  cases l with
  | nil => exact ⟨rfl, by intro c hc; simp [parseFracPart] at hc⟩
  | cons c t =>
    by_cases hc : c = '.'
    · subst hc
      simp only [parseFracPart]
      by_cases hds : t.takeWhile isDigitChar = []
      · simp only [if_pos rfl, hds, if_true]
        exact ⟨rfl, by intro x hx; simp at hx⟩
      · simp only [if_pos rfl, if_neg hds]
        constructor
        · simp [List.takeWhile_append_dropWhile]
        · intro x hx
          rcases List.mem_cons.mp hx with rfl | hx'
          · exact ⟨rfl, by decide⟩
          · exact good_of_digit (List.mem_takeWhile_imp hx')
    · simp only [parseFracPart, if_neg hc]
      exact ⟨rfl, by intro x hx; simp at hx⟩

theorem parseExpPart_consumed (l : List Char) :
    l = (parseExpPart l).1 ++ (parseExpPart l).2
    ∧ ∀ c ∈ (parseExpPart l).1, Good c := by
  cases l with
  | nil => exact ⟨rfl, by intro c hc; simp [parseExpPart] at hc⟩
  | cons c t =>
    have hgc : (c = 'e' ∨ c = 'E') → Good c := by
      rintro (rfl | rfl) <;> exact ⟨rfl, by decide⟩
    by_cases hce : c = 'e' ∨ c = 'E'
    · simp only [parseExpPart, if_pos hce]
      cases t with
      | nil => exact ⟨rfl, by intro x hx; simp at hx⟩
      | cons s2 t2 =>
        have hgs : (s2 = '+' ∨ s2 = '-') → Good s2 := by
          rintro (rfl | rfl) <;> exact ⟨rfl, by decide⟩
        by_cases hs : s2 = '+' ∨ s2 = '-'
        · simp only [if_pos hs]
          by_cases hds : t2.takeWhile isDigitChar = []
          · simp only [hds, if_true]
            exact ⟨rfl, by intro x hx; simp at hx⟩
          · simp only [if_neg hds]
            constructor
            · simp [List.takeWhile_append_dropWhile]
            · intro x hx
              rcases List.mem_cons.mp hx with rfl | hx'
              · exact hgc hce
              · rcases List.mem_cons.mp hx' with rfl | hx''
                · exact hgs hs
                · exact good_of_digit (List.mem_takeWhile_imp hx'')
        · simp only [if_neg hs]
          by_cases hds : (s2 :: t2).takeWhile isDigitChar = []
          · simp only [hds, if_true]
            exact ⟨rfl, by intro x hx; simp at hx⟩
          · simp only [if_neg hds]
            constructor
            · simp [List.takeWhile_append_dropWhile]
            · intro x hx
              rcases List.mem_cons.mp hx with rfl | hx'
              · exact hgc hce
              · exact good_of_digit (List.mem_takeWhile_imp hx')
    · simp only [parseExpPart, if_neg hce]
      exact ⟨rfl, by intro x hx; simp at hx⟩

theorem parseNumberCore_consumed {neg : Bool} {l1 : List Char} {v : Json}
    {rest : List Char} (h : parseNumberCore neg l1 = some (v, rest)) :
    ∃ pre, l1 = pre ++ rest ∧ pre ≠ [] ∧ ∀ c ∈ pre, Good c := by
  unfold parseNumberCore at h
  cases hip : parseIntPart l1 with
  | none => rw [hip] at h; exact Option.noConfusion h
  | some p =>
    rw [hip] at h
    obtain ⟨ds, r1⟩ := p
    obtain ⟨hl1, hne, hds⟩ := parseIntPart_consumed hip
    obtain ⟨hfr1, hfr2⟩ := parseFracPart_consumed r1
    obtain ⟨hex1, hex2⟩ := parseExpPart_consumed (parseFracPart r1).2
    dsimp only at h
    by_cases hcnd : (parseFracPart r1).1 = []
      ∧ (parseExpPart (parseFracPart r1).2).1 = []
    · rw [if_pos hcnd] at h
      injection h with h'
      injection h' with hv hr
      exact ⟨ds, by rw [← hr]; exact hl1, hne,
        fun c hcm => good_of_digit (hds c hcm)⟩
    · rw [if_neg hcnd] at h
      injection h with h'
      injection h' with hv hr
      refine ⟨ds ++ (parseFracPart r1).1 ++ (parseExpPart (parseFracPart r1).2).1,
        ?_, by simp [hne], ?_⟩
      · rw [← hr, hl1]
        nth_rewrite 1 [hfr1]
        nth_rewrite 1 [hex1]
        simp [List.append_assoc]
      · intro x hx
        rcases List.mem_append.mp hx with hx' | hx'
        · rcases List.mem_append.mp hx' with hx'' | hx''
          · exact good_of_digit (hds x hx'')
          · exact hfr2 x hx''
        · exact hex2 x hx'

theorem parseNumber_consumed {l : List Char} {v : Json} {rest : List Char}
    (h : parseNumber l = some (v, rest)) :
    ∃ pre, l = pre ++ rest ∧ pre ≠ [] ∧ ∀ c ∈ pre, Good c := by
  unfold parseNumber at h
  split at h
  · obtain ⟨pre', hp, hne, hch⟩ := parseNumberCore_consumed h
    refine ⟨'-' :: pre', by simp [hp], by simp, ?_⟩
    intro x hx
    rcases List.mem_cons.mp hx with rfl | hx'
    · exact ⟨rfl, by decide⟩
    · exact hch x hx'
  · exact parseNumberCore_consumed h

theorem q_str_chunk {preK : List Char} (hch : ∀ c ∈ preK, 32 ≤ c.toNat) :
    Q ('"' :: preK) := by
  refine q_of_noNl ?_ (Or.inr ⟨'"', preK, rfl, ⟨rfl, by decide⟩⟩)
  intro hmem
  rcases List.mem_cons.mp hmem with heq | hmem'
  · exact absurd heq.symm (by decide)
  · exact absurd (hch _ hmem') (by decide)

theorem parseValue_succ (f : Nat) (c : Char) (t : List Char) :
    parseValue (f + 1) (c :: t) =
      (if c = '{' then
        match skipWsL t with
        | '}' :: r => some (Json.obj [], r)
        | l1 => parseMembers f l1 []
      else if c = '[' then
        match skipWsL t with
        | ']' :: r => some (Json.arr [], r)
        | l1 => parseElems f l1 []
      else if c = '"' then
        (parseStr t).map fun p => (Json.str (String.mk p.1), p.2)
      else if c = 't' then (expectLit "rue".data t).map fun r => (Json.bool true, r)
      else if c = 'f' then (expectLit "alse".data t).map fun r => (Json.bool false, r)
      else if c = 'n' then (expectLit "ull".data t).map fun r => (Json.null, r)
      else if c = 'N' then (expectLit "aN".data t).map fun r => (Json.numRaw "NaN", r)
      else if c = 'I' then
        (expectLit "nfinity".data t).map fun r => (Json.numRaw "Infinity", r)
      else if c = '-' then
        match t with
        | 'I' :: t2 =>
          (expectLit "nfinity".data t2).map fun r => (Json.numRaw "-Infinity", r)
        | _ => parseNumber (c :: t)
      else if isDigitChar c then parseNumber (c :: t)
      else none) := rfl

theorem parseMembers_succ (f : Nat) (l : List Char) (acc : List (String × Json)) :
    parseMembers (f + 1) l acc =
      (match l with
      | '"' :: t =>
        match parseStr t with
        | none => none
        | some (key, r1) =>
          match skipWsL r1 with
          | ':' :: r2 =>
            match parseValue f (skipWsL r2) with
            | none => none
            | some (v, r3) =>
              match skipWsL r3 with
              | ',' :: r4 => parseMembers f (skipWsL r4) (insertKV acc (String.mk key) v)
              | '}' :: r4 => some (Json.obj (insertKV acc (String.mk key) v), r4)
              | _ => none
          | _ => none
      | _ => none) := rfl

theorem parseElems_succ (f : Nat) (l : List Char) (acc : List Json) :
    parseElems (f + 1) l acc =
      (match parseValue f l with
      | none => none
      | some (v, r1) =>
        match skipWsL r1 with
        | ',' :: r2 => parseElems f (skipWsL r2) (acc ++ [v])
        | ']' :: r2 => some (Json.arr (acc ++ [v]), r2)
        | _ => none) := rfl

theorem parse_consumed (fuel : Nat) :
    (∀ l v rest, parseValue fuel l = some (v, rest) →
      ∃ pre, l = pre ++ rest ∧ Q pre)
    ∧ (∀ l acc v rest, parseMembers fuel l acc = some (v, rest) →
      ∃ pre, l = pre ++ rest ∧ Q pre)
    ∧ (∀ l acc v rest, parseElems fuel l acc = some (v, rest) →
      ∃ pre, l = pre ++ rest ∧ Q pre) := by
  induction fuel with
  | zero =>
    refine ⟨?_, ?_, ?_⟩
    · intro l v rest h; exact Option.noConfusion h
    · intro l acc v rest h; exact Option.noConfusion h
    · intro l acc v rest h; exact Option.noConfusion h
  | succ f ih =>
    obtain ⟨ihv, ihm, ihe⟩ := ih
    refine ⟨?_, ?_, ?_⟩
    · intro l v rest h
      cases l with
      | nil => exact Option.noConfusion h
      | cons c t =>
        rw [parseValue_succ] at h
        by_cases hb1 : c = '{'
        · rw [if_pos hb1] at h
          subst hb1
          obtain ⟨w, hw, hallw⟩ := skipWs_decomp t
          split at h
          · rename_i r heq
            injection h with h'
            injection h' with hv hr
            rw [heq] at hw
            refine ⟨'{' :: (w ++ ['}']), ?_, ?_⟩
            · rw [hw, ← hr]
              simp
            · exact q_append (@q_of_allGood ['{'] (by decide))
                (q_append (q_of_allWs hallw) (@q_of_allGood ['}'] (by decide)))
          · obtain ⟨pre2, hpre2, hq2⟩ := ihm (skipWsL t) [] v rest h
            rw [hpre2] at hw
            refine ⟨'{' :: (w ++ pre2), ?_, ?_⟩
            · rw [hw]; simp
            · exact q_append (@q_of_allGood ['{'] (by decide))
                (q_append (q_of_allWs hallw) hq2)
        · rw [if_neg hb1] at h
          by_cases hb2 : c = '['
          · rw [if_pos hb2] at h
            subst hb2
            obtain ⟨w, hw, hallw⟩ := skipWs_decomp t
            split at h
            · rename_i r heq
              injection h with h'
              injection h' with hv hr
              rw [heq] at hw
              refine ⟨'[' :: (w ++ [']']), ?_, ?_⟩
              · rw [hw, ← hr]
                simp
              · exact q_append (@q_of_allGood ['['] (by decide))
                  (q_append (q_of_allWs hallw) (@q_of_allGood [']'] (by decide)))
            · obtain ⟨pre2, hpre2, hq2⟩ := ihe (skipWsL t) [] v rest h
              rw [hpre2] at hw
              refine ⟨'[' :: (w ++ pre2), ?_, ?_⟩
              · rw [hw]; simp
              · exact q_append (@q_of_allGood ['['] (by decide))
                  (q_append (q_of_allWs hallw) hq2)
          · rw [if_neg hb2] at h
            by_cases hb3 : c = '"'
            · rw [if_pos hb3] at h
              subst hb3
              obtain ⟨p, hp, hpe⟩ := Option.map_eq_some'.mp h
              obtain ⟨preK, hpreK, hchK⟩ := psb_consumed (t.length + 1) t p.1 p.2 hp
              injection hpe with hv hr
              refine ⟨'"' :: preK, ?_, q_str_chunk hchK⟩
              rw [hpreK, ← hr]
              simp
            · rw [if_neg hb3] at h
              by_cases hb4 : c = 't'
              · rw [if_pos hb4] at h
                subst hb4
                obtain ⟨r, hr', hre⟩ := Option.map_eq_some'.mp h
                injection hre with hv hrr
                have ht := expectLit_consumed hr'
                refine ⟨'t' :: "rue".data, ?_, q_of_allGood (by decide)⟩
                rw [ht, ← hrr]
                simp
              · rw [if_neg hb4] at h
                by_cases hb5 : c = 'f'
                · rw [if_pos hb5] at h
                  subst hb5
                  obtain ⟨r, hr', hre⟩ := Option.map_eq_some'.mp h
                  injection hre with hv hrr
                  have ht := expectLit_consumed hr'
                  refine ⟨'f' :: "alse".data, ?_, q_of_allGood (by decide)⟩
                  rw [ht, ← hrr]
                  simp
                · rw [if_neg hb5] at h
                  by_cases hb6 : c = 'n'
                  · rw [if_pos hb6] at h
                    subst hb6
                    obtain ⟨r, hr', hre⟩ := Option.map_eq_some'.mp h
                    injection hre with hv hrr
                    have ht := expectLit_consumed hr'
                    refine ⟨'n' :: "ull".data, ?_, q_of_allGood (by decide)⟩
                    rw [ht, ← hrr]
                    simp
                  · rw [if_neg hb6] at h
                    by_cases hb7 : c = 'N'
                    · rw [if_pos hb7] at h
                      subst hb7
                      obtain ⟨r, hr', hre⟩ := Option.map_eq_some'.mp h
                      injection hre with hv hrr
                      have ht := expectLit_consumed hr'
                      refine ⟨'N' :: "aN".data, ?_, q_of_allGood (by decide)⟩
                      rw [ht, ← hrr]
                      simp
                    · rw [if_neg hb7] at h
                      by_cases hb8 : c = 'I'
                      · rw [if_pos hb8] at h
                        subst hb8
                        obtain ⟨r, hr', hre⟩ := Option.map_eq_some'.mp h
                        injection hre with hv hrr
                        have ht := expectLit_consumed hr'
                        refine ⟨'I' :: "nfinity".data, ?_, q_of_allGood (by decide)⟩
                        rw [ht, ← hrr]
                        simp
                      · rw [if_neg hb8] at h
                        by_cases hb9 : c = '-'
                        · rw [if_pos hb9] at h
                          subst hb9
                          split at h
                          · rename_i t2
                            obtain ⟨r, hr', hre⟩ := Option.map_eq_some'.mp h
                            injection hre with hv hrr
                            have ht2 := expectLit_consumed hr'
                            refine ⟨'-' :: 'I' :: "nfinity".data, ?_,
                              q_of_allGood (by decide)⟩
                            rw [ht2, ← hrr]
                            simp
                          · obtain ⟨pre, hp, hne, hch⟩ := parseNumber_consumed h
                            exact ⟨pre, hp, q_of_allGood hch⟩
                        · rw [if_neg hb9] at h
                          by_cases hb10 : isDigitChar c = true
                          · rw [if_pos hb10] at h
                            obtain ⟨pre, hp, hne, hch⟩ := parseNumber_consumed h
                            exact ⟨pre, hp, q_of_allGood hch⟩
                          · rw [if_neg hb10] at h
                            exact Option.noConfusion h
    · intro l acc v rest h
      rw [parseMembers_succ] at h
      split at h
      · rename_i t
        cases hps : parseStr t with
        | none => rw [hps] at h; exact Option.noConfusion h
        | some p =>
          obtain ⟨key, r1⟩ := p
          rw [hps] at h
          dsimp only at h
          obtain ⟨preK, hpreK, hchK⟩ := psb_consumed (t.length + 1) t key r1 hps
          obtain ⟨w2, hw2, hallw2⟩ := skipWs_decomp r1
          split at h
          · rename_i r2 heq2
            rw [heq2] at hw2
            cases hpv : parseValue f (skipWsL r2) with
            | none => rw [hpv] at h; exact Option.noConfusion h
            | some q =>
              obtain ⟨v', r3⟩ := q
              rw [hpv] at h
              dsimp only at h
              obtain ⟨preV, hpreV, hqV⟩ := ihv (skipWsL r2) v' r3 hpv
              obtain ⟨w3, hw3, hallw3⟩ := skipWs_decomp r2
              rw [hpreV] at hw3
              obtain ⟨w4, hw4, hallw4⟩ := skipWs_decomp r3
              split at h
              · rename_i r4 heq4
                rw [heq4] at hw4
                obtain ⟨w5, hw5, hallw5⟩ := skipWs_decomp r4
                obtain ⟨preM, hpreM, hqM⟩ := ihm (skipWsL r4) _ v rest h
                rw [hpreM] at hw5
                refine ⟨'"' :: (preK ++ (w2 ++ ':' ::
                  (w3 ++ (preV ++ (w4 ++ ',' :: (w5 ++ preM)))))), ?_, ?_⟩
                · rw [hpreK, hw2, hw3, hw4, hw5]
                  simp
                · exact q_append (q_str_chunk hchK)
                    (q_append (q_of_allWs hallw2)
                      (q_append (@q_of_allGood [':'] (by decide))
                        (q_append (q_of_allWs hallw3)
                          (q_append hqV
                            (q_append (q_of_allWs hallw4)
                              (q_append (@q_of_allGood [','] (by decide))
                                (q_append (q_of_allWs hallw5) hqM)))))))
              · rename_i r4 heq4
                rw [heq4] at hw4
                injection h with h'
                injection h' with hv hr
                refine ⟨'"' :: (preK ++ (w2 ++ ':' ::
                  (w3 ++ (preV ++ (w4 ++ ['\x7d']))))), ?_, ?_⟩
                · rw [hpreK, hw2, hw3, hw4, ← hr]
                  simp
                · exact q_append (q_str_chunk hchK)
                    (q_append (q_of_allWs hallw2)
                      (q_append (@q_of_allGood [':'] (by decide))
                        (q_append (q_of_allWs hallw3)
                          (q_append hqV
                            (q_append (q_of_allWs hallw4)
                              (@q_of_allGood ['\x7d'] (by decide)))))))
              · exact Option.noConfusion h
          · exact Option.noConfusion h
      · exact Option.noConfusion h
    · intro l acc v rest h
      rw [parseElems_succ] at h
      cases hpv : parseValue f l with
      | none => rw [hpv] at h; exact Option.noConfusion h
      | some q =>
        obtain ⟨v', r1⟩ := q
        rw [hpv] at h
        dsimp only at h
        obtain ⟨preV, hpreV, hqV⟩ := ihv l v' r1 hpv
        obtain ⟨w1, hw1, hallw1⟩ := skipWs_decomp r1
        split at h
        · rename_i r2 heq2
          rw [heq2] at hw1
          obtain ⟨w2, hw2, hallw2⟩ := skipWs_decomp r2
          obtain ⟨preE, hpreE, hqE⟩ := ihe (skipWsL r2) _ v rest h
          rw [hpreE] at hw2
          refine ⟨preV ++ (w1 ++ ',' :: (w2 ++ preE)), ?_, ?_⟩
          · rw [hpreV, hw1, hw2]
            simp
          · exact q_append hqV
              (q_append (q_of_allWs hallw1)
                (q_append (@q_of_allGood [','] (by decide))
                  (q_append (q_of_allWs hallw2) hqE)))
        · rename_i r2 heq2
          rw [heq2] at hw1
          injection h with h'
          injection h' with hv hr
          refine ⟨preV ++ (w1 ++ [']']), ?_, ?_⟩
          · rw [hpreV, hw1, ← hr]
            simp
          · exact q_append hqV
              (q_append (q_of_allWs hallw1) (@q_of_allGood [']'] (by decide)))
        · exact Option.noConfusion h

theorem parseJsonL_q {l : List Char} {j : Json} (h : parseJsonL l = some j) :
    Q l := by
  unfold parseJsonL at h
  cases hpv : parseValue (l.length + 2) (skipWsL l) with
  | none => rw [hpv] at h; exact Option.noConfusion h
  | some q =>
    obtain ⟨v, r⟩ := q
    rw [hpv] at h
    dsimp only at h
    by_cases hr : skipWsL r = []
    · obtain ⟨w0, hw0, hallw0⟩ := skipWs_decomp l
      obtain ⟨preV, hpreV, hqV⟩ :=
        (parse_consumed (l.length + 2)).1 (skipWsL l) v r hpv
      obtain ⟨w1, hw1, hallw1⟩ := skipWs_decomp r
      rw [hr, List.append_nil] at hw1
      have hl : l = w0 ++ (preV ++ w1) := by
        rw [hw0, hpreV, ← hw1]
      rw [hl]
      exact q_append (q_of_allWs hallw0) (q_append hqV (q_of_allWs hallw1))
    · rw [if_neg hr] at h
      exact Option.noConfusion h

theorem parse_q {s : String} {j : Json} (h : parseJson s = some j) : Q s.data :=
  parseJsonL_q h

theorem wg_first {s m r : List Char} (hwg : WG s) (hs : s = m ++ r) :
    allPyWs m ∨ ∃ w g t, m = w ++ g :: t ∧ allPyWs w ∧ Good g := by
  rcases hwg with ⟨w, g, t, hw, hallw, hg⟩ | hall
  · rw [hs] at hw
    rcases List.append_eq_append_iff.mp hw with ⟨a', ha1, ha2⟩ | ⟨c', hc1, hc2⟩
    · left
      intro c hc
      exact hallw c (by rw [ha1]; exact List.mem_append.mpr (Or.inl hc))
    · cases c' with
      | nil =>
        left
        intro c hc
        rw [hc1] at hc
        simp only [List.append_nil] at hc
        exact hallw c hc
      | cons g' c'' =>
        right
        injection hc2 with hgg htt
        exact ⟨w, g', c'', hc1, hallw, hgg ▸ hg⟩
  · left
    intro c hc
    exact hall c (by rw [hs]; exact List.mem_append.mpr (Or.inl hc))

theorem dropWhile_all_append {p : Char → Bool} {w : List Char} (rest : List Char)
    (hw : ∀ c ∈ w, p c = true) :
    (w ++ rest).dropWhile p = rest.dropWhile p := by
  induction w with
  | nil => rfl
  | cons x xs ih =>
    rw [List.cons_append, List.dropWhile_cons,
      if_pos (hw x (List.mem_cons_self _ _))]
    exact ih fun c hc => hw c (List.mem_cons_of_mem _ hc)

theorem lstrip_cons_nonws {c : Char} {t : List Char} (hc : isPyWs c = false) :
    lStripL (c :: t) = c :: t := by
  unfold lStripL
  rw [List.dropWhile_cons, if_neg (by simp [hc])]

theorem rstrip_append_nonws {g : Char} (u : List Char) (hg : isPyWs g = false) :
    rStripL (u ++ [g]) = u ++ [g] := by
  unfold rStripL
  rw [List.reverse_append]
  show ((g :: u.reverse).dropWhile isPyWs).reverse = u ++ [g]
  rw [List.dropWhile_cons, if_neg (by simp [hg])]
  simp

theorem rstrip_cons_head {g : Char} {t : List Char} (hg : isPyWs g = false) :
    ∃ t', rStripL (g :: t) = g :: t' := by
  unfold rStripL
  rw [List.reverse_cons]
  have key : ∀ u : List Char, ∃ s, (u ++ [g]).dropWhile isPyWs = s ++ [g] := by
    intro u
    induction u with
    | nil => exact ⟨[], by rw [List.nil_append, List.dropWhile_cons,
        if_neg (by simp [hg])]⟩
    | cons x xs ih =>
      by_cases hx : isPyWs x = true
      · obtain ⟨sx, hs⟩ := ih
        exact ⟨sx, by rw [List.cons_append, List.dropWhile_cons, if_pos hx, hs]⟩
      · exact ⟨x :: xs, by rw [List.cons_append, List.dropWhile_cons,
          if_neg (by simp_all)]⟩
  obtain ⟨sx, hs⟩ := key t.reverse
  rw [hs, List.reverse_append]
  exact ⟨sx.reverse, rfl⟩

theorem notFence_of_wg {m : List Char}
    (h : allPyWs m ∨ ∃ w g t, m = w ++ g :: t ∧ allPyWs w ∧ Good g) :
    isFenceLine m = false := by
  unfold isFenceLine pyStripL
  rcases h with hall | ⟨w, g, t, rfl, hallw, hg⟩
  · have hnil : lStripL m = [] := by
      unfold lStripL
      rw [List.dropWhile_eq_nil_iff]
      exact fun c hc => by simp [hall c hc]
    rw [hnil]
    rfl
  · have hl : lStripL (w ++ g :: t) = g :: t := by
      unfold lStripL
      rw [dropWhile_all_append _ hallw, List.dropWhile_cons, if_neg (by simp [hg.1])]
    rw [hl]
    obtain ⟨t', ht'⟩ := rstrip_cons_head hg.1
    rw [ht']
    show leadEq ('\x60' :: '\x60' :: '\x60' :: []) (g :: t') = false
    have : ('\x60' == g) = false := by
      rw [beq_eq_false_iff_ne]
      exact fun hc => hg.2 hc.symm
    simp [leadEq, this]

theorem q_lines {l : List Char} (hq : Q l) :
    ∀ m ∈ splitNl l, isFenceLine m = false := by
  intro m hm
  rcases splitNl_mem hm with ⟨r, hr⟩ | ⟨a, r, har⟩
  · exact notFence_of_wg (wg_first hq.2 hr)
  · exact notFence_of_wg (wg_first (hq.1 a (m ++ r) har) rfl)

theorem scan_collect {ms : List (List Char)} {fin : List Char}
    (hfin : isFenceLine fin = true) (hms : ∀ m ∈ ms, isFenceLine m = false) :
    scanLines true (ms ++ [fin]) = ms := by
  induction ms with
  | nil => simp [scanLines, hfin]
  | cons m ms ih =>
    rw [List.cons_append]
    show scanLines true (m :: (ms ++ [fin])) = m :: ms
    rw [scanLines.eq_def]
    dsimp only
    rw [if_neg (by simp [hms m (List.mem_cons_self _ _)])]
    show m :: scanLines true (ms ++ [fin]) = m :: ms
    rw [ih fun x hx => hms x (List.mem_cons_of_mem _ hx)]

theorem strip_of_fenced (T : String)
    (hlines : ∀ m ∈ splitNl T.data, isFenceLine m = false) :
    stripFences ("```json\n" ++ T ++ "\n```") = T := by
  have hdata : ("```json\n" ++ T ++ "\n```").data
      = "```json".data ++ '\n' :: (T.data ++ '\n' :: "```".data) := by
    rw [String.data_append, String.data_append]
    show ("```json".data ++ ['\n']) ++ T.data ++ ('\n' :: "```".data) = _
    simp [List.append_assoc]
  have hfence : isFenceLine ("```json\n" ++ T ++ "\n```").data = true := by
    rw [hdata]
    unfold isFenceLine pyStripL
    have h1 : lStripL ("```json".data ++ '\n' :: (T.data ++ '\n' :: "```".data))
        = "```json".data ++ '\n' :: (T.data ++ '\n' :: "```".data) := by
      show lStripL ('\x60' :: _) = _
      exact lstrip_cons_nonws (by decide)
    rw [h1]
    have h2 : "```json".data ++ '\n' :: (T.data ++ '\n' :: "```".data)
        = ("```json".data ++ '\n' :: (T.data ++ '\n' :: ['\x60', '\x60'])) ++ ['\x60'] := by
      simp [List.append_assoc]
    rw [h2, rstrip_append_nonws _ (by decide), ← h2]
    rfl
  have hsplit : splitNl ("```json\n" ++ T ++ "\n```").data
      = "```json".data :: (splitNl T.data ++ ["```".data]) := by
    rw [hdata, splitNl_append, splitNl_append]
    rw [show splitNl ("```json".data) = ["```json".data] from rfl,
      show splitNl ("```".data) = ["```".data] from rfl]
    rfl
  unfold stripFences
  rw [if_pos hfence, hsplit]
  rw [show scanLines false ("```json".data :: (splitNl T.data ++ ["```".data]))
      = scanLines true (splitNl T.data ++ ["```".data]) from rfl]
  rw [scan_collect (show isFenceLine ("```".data) = true from rfl) hlines,
    joinNl_splitNl]

theorem strip_of_unfenced (T : String) (h : isFenceLine T.data = false) :
    stripFences T = T := by
  unfold stripFences
  rw [h]
  simp

/-- C3: for every text that parses as a JSON object (per the embedded
`json.loads` model), normalizing the fenced response and normalizing the
bare response yield identical results — fence stripping is transparent for
well-formed payloads. The proof rests on an invariant of parseable text:
no line of it can satisfy `line.strip().startswith("```")`. -/
theorem c3_fence_transparent (T : String) (kvs : List (String × Json))
    (h : parseJson T = some (Json.obj kvs)) :
    validate_document_response ("```json\n" ++ T ++ "\n```")
      = validate_document_response T := by
  have hq : Q T.data := parse_q h
  have hT : stripFences T = T :=
    strip_of_unfenced T
      (notFence_of_wg (wg_first hq.2 (List.append_nil T.data).symm))
  have hF : stripFences ("```json\n" ++ T ++ "\n```") = T :=
    strip_of_fenced T (q_lines hq)
  unfold validate_document_response
  rw [hF, hT]

/-- Witness for C3 on a small JSON object. -/
theorem c3_fence_transparent_witness :
    parseJson "\x7b\"a\": 1\x7d" = some (Json.obj [("a", Json.num 1)])
    ∧ validate_document_response ("```json\n" ++ "\x7b\"a\": 1\x7d" ++ "\n```")
        = validate_document_response "\x7b\"a\": 1\x7d" :=
  ⟨rfl, c3_fence_transparent "\x7b\"a\": 1\x7d" [("a", Json.num 1)] rfl⟩

end MedDoc
